import Mathlib

/-!
songsara-dl: a verification development.

A shallow embedding of `downloader.go` (the scraper, the filename sanitizer and the
download engine of `songsara-dl`) together with proofs of the properties its
specification states.

Conventions of the embedding.

* A Go `string` is modelled as the list of its Unicode code points (`GoString`);
  every string the program handles comes out of the HTML parser or from a literal.
* Library code the program calls (`goquery`, `net/http`, `os`, `net/url`) is not part
  of the repository: it is taken as a parameter (`Dom`, `Env`, `urlParse`), so every
  theorem holds for whatever those libraries answer.
* `regexp`, `strings`, `fmt` and `path/filepath` calls whose result is decided by the
  argument alone are modelled by small executable functions.
-/

namespace SongSara

/-- A Go string: the sequence of its code points. -/
abbrev GoString := List Char

/-! ## The filename sanitizer (`sanitizeFilename`, downloader.go 514-527) -/

/-- Membership in the character class of the first regular expression of
`sanitizeFilename`, the set `/ * ? : " < > |`, given by code point. -/
def isIllegal (c : Char) : Bool :=
  c.toNat == 47 || c.toNat == 42 || c.toNat == 63 || c.toNat == 58 ||
  c.toNat == 34 || c.toNat == 60 || c.toNat == 62 || c.toNat == 124

/-- Go's `unicode.IsSpace`: the Latin-1 spaces `\t \n \v \f \r`, space, U+0085, U+00A0
and the code points with the Unicode White_Space property. -/
def isSpace (c : Char) : Bool :=
  (9 ≤ c.toNat && c.toNat ≤ 13) || c.toNat == 32 || c.toNat == 133 || c.toNat == 160 ||
  c.toNat == 5760 || (8192 ≤ c.toNat && c.toNat ≤ 8202) || c.toNat == 8232 ||
  c.toNat == 8233 || c.toNat == 8239 || c.toNat == 8287 || c.toNat == 12288

/-- The class `\s` of Go's regular expressions (RE2 syntax): `[\t\n\f\r ]`.
The vertical tab is not a member. -/
def isReSpace (c : Char) : Bool :=
  c.toNat == 9 || c.toNat == 10 || c.toNat == 12 || c.toNat == 13 || c.toNat == 32

/-- The result of `regexp.MustCompile("[/*?:\"<>|]").ReplaceAllString(s, "")`:
every character of the class is deleted. -/
def removeIllegal (s : GoString) : GoString :=
  s.filter (fun c => !isIllegal c)

/-- Go's `strings.TrimSpace`: leading, then trailing, `unicode.IsSpace` code points
are removed. -/
def trimSpace (s : GoString) : GoString :=
  (s.dropWhile isSpace).rdropWhile isSpace

/-- The result of `regexp.MustCompile("\\s+").ReplaceAllString(s, " ")`, scanning left to
right: `inRun` tells that the previous character belonged to a match, whose single
replacement space has already been emitted. -/
def collapseAux : GoString → Bool → GoString
  | [], _ => []
  | c :: cs, inRun =>
    if isReSpace c then
      if inRun then collapseAux cs true else ' ' :: collapseAux cs true
    else c :: collapseAux cs false

/-- Every maximal run matched by `\s+` is replaced by one space. -/
def collapseSpaces (s : GoString) : GoString :=
  collapseAux s false

/-- The method `sanitizeFilename`: delete the illegal characters, trim, collapse. -/
def sanitizeFilename (filename : GoString) : GoString :=
  collapseSpaces (trimSpace (removeIllegal filename))

/-! ## The document interface (`goquery`) -/

/-- What the program observes of a parsed HTML document through `goquery`. `N` is the
type of element nodes. Selections are lists of nodes in document order. -/
structure Dom (N : Type) where
  /-- The nodes `doc.Find(selector)` matches, in document order. -/
  docFind : String → List N
  /-- The descendants of one node that `Find(selector)` matches, in document order. -/
  find : N → String → List N
  /-- The value of an attribute of a node, when the node has it. -/
  attr : N → String → Option GoString
  /-- The text content of a node and its descendants. -/
  text : N → GoString
  /-- The parent element of a node. -/
  parent : N → Option N

variable {N : Type}

/-- The method `Selection.AttrOr`: the attribute of the first node of the selection, or the
default when the selection is empty or the node lacks the attribute. -/
def attrOr (dom : Dom N) (sel : List N) (name : String) (dflt : GoString) : GoString :=
  match sel with
  | [] => dflt
  | n :: _ => (dom.attr n name).getD dflt

/-- The method `Selection.Text`: the text contents of the nodes of the selection, combined. -/
def selText (dom : Dom N) (sel : List N) : GoString :=
  (sel.map dom.text).flatten

/-- The method `Selection.First`. -/
def selFirst (sel : List N) : List N :=
  sel.take 1

/-- The method `Selection.Parent` of a selection of one node. -/
def selParent (dom : Dom N) (n : N) : List N :=
  (dom.parent n).toList

/-- The method `Selection.Find` on a selection of at most one node (the only use the
program makes of it). -/
def selFind (dom : Dom N) (sel : List N) (q : String) : List N :=
  match sel with
  | [] => []
  | n :: _ => dom.find n q

/-! ## Records and extraction (downloader.go 19-27, 183-388) -/

/-- The struct `Song`. -/
structure Song where
  Title : GoString
  URL : GoString
deriving DecidableEq, Repr

/-- The struct `Album`. -/
structure Album where
  Title : GoString
  Songs : List Song
deriving DecidableEq, Repr

/-- The fallback loop of `extractAlbumTitle` (lines 218-223) over the remaining selectors. -/
def titleFallback (dom : Dom N) : List String → GoString
  | [] => []
  | selector :: rest =>
    let title := selText dom (selFirst (dom.docFind selector))
    if title ≠ [] then trimSpace title else titleFallback dom rest

/-- The selectors of the fallback loop of `extractAlbumTitle`, in order. -/
def titleSelectors : List String :=
  [".title", ".album-title", "[class*='title']", "[class*='album']", ".playlist-title",
   "[class*='playlist']"]

/-- The method `extractAlbumTitle`. -/
def extractAlbumTitle (dom : Dom N) : GoString :=
  let title := selText dom (dom.docFind ".AL-Si")
  if title ≠ [] then trimSpace title else
  let title := selText dom (selFirst (dom.docFind "h1"))
  if title ≠ [] then trimSpace title else
  let title := attrOr dom (dom.docFind "meta[property='og:title']") "content" []
  if title ≠ [] then trimSpace title else
  let title := selText dom (dom.docFind "title")
  if title ≠ [] then trimSpace title else
  titleFallback dom titleSelectors

/-- The method `extractSongFromAudioElement`. -/
def extractSongFromAudioElement (dom : Dom N) (s : N) : Song :=
  let title := attrOr dom [s] "title" []
  let title := if title = [] then attrOr dom [s] "alt" [] else title
  let title := if title = [] then
      attrOr dom (selFind dom (selParent dom s) "[title]") "title" [] else title
  let title := if title = [] then selText dom (selParent dom s) else title
  let url := attrOr dom [s] "src" []
  let url := if url = [] then attrOr dom (dom.find s "source") "src" [] else url
  { Title := trimSpace title, URL := trimSpace url }

/-- The method `extractSongFromLink`. -/
def extractSongFromLink (dom : Dom N) (s : N) : Song :=
  let title := dom.text s
  let title := if title = [] then attrOr dom [s] "title" [] else title
  let title := if title = [] then attrOr dom [s] "alt" [] else title
  let url := attrOr dom [s] "href" []
  { Title := trimSpace title, URL := trimSpace url }

/-- The loop over the alternative URL selectors of `extractSongFromElement` (lines 373-381):
the value of `downloadURL` when the loop ends. -/
def elementURLLoop (dom : Dom N) (s : N) : List String → GoString
  | [] => []
  | selector :: rest =>
    let element := selFirst (dom.find s selector)
    if element.length > 0 then
      let downloadURL :=
        attrOr dom element "data-src" (attrOr dom element "src" (attrOr dom element "href" []))
      if downloadURL ≠ [] then downloadURL else elementURLLoop dom s rest
    else elementURLLoop dom s rest

/-- The method `extractSongFromElement`. -/
def extractSongFromElement (dom : Dom N) (s : N) : Song :=
  let title := attrOr dom [s] "data-title" []
  let title := if title = [] then attrOr dom (dom.find s "[data-title]") "data-title" []
    else title
  let title := if title = [] then trimSpace (dom.text s) else title
  let sourceDiv := dom.find s "div.audioplayer-source"
  let downloadURL : GoString := if sourceDiv.length > 0 then attrOr dom sourceDiv "data-src" []
    else []
  let downloadURL := if downloadURL = [] then
      elementURLLoop dom s
        ["[data-src]", "[src]", "audio source", "a[href*='.mp3']", "a[href*='.m4a']",
         "a[href*='.wav']"]
    else downloadURL
  { Title := trimSpace title, URL := trimSpace downloadURL }

/-- One `Each` loop of `extractSongs`: every node of the selection is turned into a song,
which is appended to `songs` when its title and URL are both non-empty. -/
def eachAppend (extract : N → Song) (songs : List Song) (sel : List N) : List Song :=
  sel.foldl (fun acc n =>
    let song := extract n
    if song.Title ≠ [] ∧ song.URL ≠ [] then acc ++ [song] else acc) songs

/-- The loop over the alternative selectors of `extractSongs` (lines 305-315). -/
def alternativeLoop (dom : Dom N) (songs : List Song) : List String → List Song
  | [] => songs
  | selector :: rest =>
    let songs := eachAppend (extractSongFromElement dom) songs (dom.docFind selector)
    if songs.length > 0 then songs else alternativeLoop dom songs rest

/-- The alternative selectors of `extractSongs`, in order. -/
def songSelectors : List String :=
  ["li[data-title]", ".track", ".song", "[class*='track']", "[class*='song']", "li",
   ".playlist-item", "[class*='playlist']", "[data-src]", "[src*='.mp3']", "[src*='.m4a']",
   "[src*='.wav']", "[src*='.flac']"]

/-- The method `extractSongs`. -/
def extractSongs (dom : Dom N) : List Song :=
  let songs := eachAppend (extractSongFromElement dom) []
    (dom.docFind "#aramplayer .audioplayer-audios li")
  let songs := if songs.length = 0 then alternativeLoop dom songs songSelectors else songs
  let songs := if songs.length = 0 then
      eachAppend (extractSongFromAudioElement dom) songs (dom.docFind "audio")
    else songs
  let songs := if songs.length = 0 then
      eachAppend (extractSongFromLink dom) songs
        (dom.docFind "a[href*='.mp3'], a[href*='.m4a'], a[href*='.wav'], a[href*='.flac']")
    else songs
  songs

/-- The album `scrapeAlbum` builds from a parsed document (lines 139-180): the extracted
title, replaced by `Unknown Album` when empty, and the extracted songs. -/
def albumOfDocument (dom : Dom N) : Album :=
  let albumTitle := extractAlbumTitle dom
  let albumTitle := if albumTitle = [] then "Unknown Album".toList else albumTitle
  { Title := albumTitle, Songs := extractSongs dom }

/-! ### The cascades as the specification words them -/

/-- The texts of the title sources in priority order: the container `.AL-Si`, the first
`h1`, the `og:title` meta content, the `title` element, then the fallback selectors. -/
def titleSources (dom : Dom N) : List GoString :=
  [selText dom (dom.docFind ".AL-Si"), selText dom (selFirst (dom.docFind "h1")),
   attrOr dom (dom.docFind "meta[property='og:title']") "content" [],
   selText dom (dom.docFind "title")] ++
  titleSelectors.map (fun q => selText dom (selFirst (dom.docFind q)))

/-- The valid records (title and URL non-empty) an extractor yields over a selection, in
document order. -/
def validRecords (extract : N → Song) (sel : List N) : List Song :=
  (sel.map extract).filter (fun song => song.Title ≠ [] ∧ song.URL ≠ [])

/-- Strategy 1: the site-specific audio-player list. -/
def strategy1 (dom : Dom N) : List Song :=
  validRecords (extractSongFromElement dom) (dom.docFind "#aramplayer .audioplayer-audios li")

/-- The outputs of the extraction strategies in their fixed order: strategy 1, each
generic selector of strategy 2 in list order, the audio elements, the audio links. -/
def strategyOutputs (dom : Dom N) : List (List Song) :=
  [strategy1 dom] ++
  songSelectors.map (fun q => validRecords (extractSongFromElement dom) (dom.docFind q)) ++
  [validRecords (extractSongFromAudioElement dom) (dom.docFind "audio"),
   validRecords (extractSongFromLink dom)
     (dom.docFind "a[href*='.mp3'], a[href*='.m4a'], a[href*='.wav'], a[href*='.flac']")]

/-- The first non-empty list of a sequence of lists, the empty list when there is none. -/
def firstNonEmpty {α : Type} : List (List α) → List α
  | [] => []
  | l :: rest => if l.length > 0 then l else firstNonEmpty rest

/-- The title the document would get if the cascade skipped every source whose text is
empty after trimming. -/
def firstTrimmedTitle (dom : Dom N) : GoString :=
  match (titleSources dom).find? (fun t => trimSpace t ≠ []) with
  | some t => trimSpace t
  | none => "Unknown Album".toList

/-! ### Sample documents -/

/-- A page with the site-specific player list of two tracks, which the bare `li` selector
and the audio-link selector match as well. Nodes 1 and 2 are the list items, 11 and 12
their source elements, 3 is a download link, 0 the title container. -/
def demoDom : Dom Nat where
  docFind q :=
    if q = "#aramplayer .audioplayer-audios li" then [1, 2]
    else if q = "li" then [1, 2]
    else if q = "a[href*='.mp3'], a[href*='.m4a'], a[href*='.wav'], a[href*='.flac']" then [3]
    else if q = ".AL-Si" then [0]
    else []
  find n q :=
    if q = "div.audioplayer-source" then
      (if n = 1 then [11] else if n = 2 then [12] else [])
    else []
  attr n name :=
    if name = "data-title" then
      (if n = 1 then some "Track One".toList else if n = 2 then some "Track Two".toList
       else none)
    else if name = "data-src" then
      (if n = 11 then some "https://x/a.mp3".toList
       else if n = 12 then some "https://x/b.flac".toList else none)
    else if name = "href" then (if n = 3 then some "https://x/c.mp3".toList else none)
    else none
  text n := if n = 0 then "Demo Album".toList else if n = 3 then "Bonus".toList else []
  parent _ := none

/-- A page whose title container `.AL-Si` (node 0) holds only blanks while its first
heading (node 1) holds a title. -/
def blankContainerDom : Dom Nat where
  docFind q := if q = ".AL-Si" then [0] else if q = "h1" then [1] else []
  find _ _ := []
  attr _ _ := none
  text n := if n = 0 then "  ".toList else if n = 1 then "Real Title".toList else []
  parent _ := none

/-! ## File names and paths (downloader.go 396, 455-463, 529-547) -/

/-- Go's `strings.HasSuffix`. -/
def hasSuffix (s suffix : GoString) : Bool :=
  suffix.isSuffixOf s

/-- The method `getFileExtension`. `urlParse` stands for `url.Parse` followed by the field
`Path`: the path component of the URL, or `none` when parsing fails. -/
def getFileExtension (urlParse : GoString → Option GoString) (urlStr : GoString) : GoString :=
  match urlParse urlStr with
  | none => []
  | some path =>
    if hasSuffix path ".mp3".toList then ".mp3".toList
    else if hasSuffix path ".m4a".toList then ".m4a".toList
    else if hasSuffix path ".wav".toList then ".wav".toList
    else if hasSuffix path ".flac".toList then ".flac".toList
    else []

/-- The extension `downloadSong` uses (lines 455-459): the one `getFileExtension` finds,
`.mp3` when it finds none. -/
def fileExtension (urlParse : GoString → Option GoString) (urlStr : GoString) : GoString :=
  let ext := getFileExtension urlParse urlStr
  if ext = [] then ".mp3".toList else ext

/-- The fixed set of audio extensions. -/
def audioExtensions : List GoString :=
  [".mp3".toList, ".m4a".toList, ".wav".toList, ".flac".toList]

/-- The character of a decimal digit. -/
def digitChar (n : Nat) : Char :=
  Char.ofNat (48 + n % 10)

/-- The digits of `n` written in front of `acc`, most significant first: the loop of Go's
integer formatting, which emits the last digit and goes on with the quotient while it is
not zero. `fuel` bounds the number of digits. -/
def decimalAux : Nat → Nat → GoString → GoString
  | 0, _, acc => acc
  | fuel + 1, n, acc =>
    if n / 10 = 0 then digitChar n :: acc else decimalAux fuel (n / 10) (digitChar n :: acc)

/-- The decimal rendering of a natural number (the verb `%d`). -/
def decimal (n : Nat) : GoString :=
  decimalAux (n + 1) n []

/-- The rendering of a non-negative integer by the verb `%02d`: its decimal digits,
padded with zeros on the left up to width 2. -/
def fmt02d (n : Nat) : GoString :=
  List.replicate (2 - (decimal n).length) '0' ++ decimal n

/-- The name of the file of a song (line 462):
`fmt.Sprintf("%02d - %s%s", trackNumber, sanitizeFilename(song.Title), ext)`. -/
def songFilename (urlParse : GoString → Option GoString) (song : Song) (trackNumber : Nat) :
    GoString :=
  fmt02d trackNumber ++ " - ".toList ++ sanitizeFilename song.Title ++
    fileExtension urlParse song.URL

/-- The elements of a path between its separators `/`. -/
def splitSlash : GoString → List GoString
  | [] => [[]]
  | c :: cs =>
    if c = '/' then [] :: splitSlash cs
    else match splitSlash cs with
      | [] => [[c]]
      | x :: xs => (c :: x) :: xs

/-- One element processed by `filepath.Clean`; `stack` holds the elements kept so far, the
last one first. Empty elements and `.` are dropped; `..` removes the element before it,
is dropped at the root of a rooted path, and is kept otherwise. -/
def cleanStep (rooted : Bool) (stack : List GoString) (c : GoString) : List GoString :=
  if c = [] ∨ c = ".".toList then stack
  else if c = "..".toList then
    match stack with
    | [] => if rooted then [] else [c]
    | top :: rest => if top = "..".toList then c :: stack else rest
  else c :: stack

/-- The normal form of a Unix path: whether it is rooted, and the elements that remain
after the rules of `filepath.Clean`. -/
def cleanComps (p : GoString) : Bool × List GoString :=
  let rooted := p.head? = some '/'
  (rooted, ((splitSlash p).foldl (cleanStep rooted) []).reverse)

/-- The string of a normal form: `/` in front of a rooted path, `.` for the empty
relative path. -/
def renderPath : Bool × List GoString → GoString
  | (true, cs) => '/' :: List.intercalate ['/'] cs
  | (false, []) => ['.']
  | (false, cs) => List.intercalate ['/'] cs

/-- Go's `filepath.Clean` for Unix paths. -/
def filepathClean (p : GoString) : GoString :=
  renderPath (cleanComps p)

/-- Go's `filepath.Join` for Unix paths: the elements from the first non-empty one on are
joined with `/` and the result is cleaned; the empty string when all are empty. -/
def filepathJoin (elem : List GoString) : GoString :=
  match elem.dropWhile (fun e => e = []) with
  | [] => []
  | es => filepathClean (List.intercalate ['/'] es)

/-- The album directory `downloadAlbum` computes (line 396). -/
def albumDirOf (outputDir : GoString) (title : GoString) : GoString :=
  filepathJoin [outputDir, sanitizeFilename title]

/-- The path of the file of a song (line 463). -/
def songPath (urlParse : GoString → Option GoString) (albumDir : GoString) (song : Song)
    (trackNumber : Nat) : GoString :=
  filepathJoin [albumDir, songFilename urlParse song trackNumber]

/-- A path element that names an entry of a directory: not empty, not `.`, not `..`, and
free of separators. -/
def isPlainName (name : GoString) : Prop :=
  name ≠ [] ∧ name ≠ ".".toList ∧ name ≠ "..".toList ∧ '/' ∉ name

instance (name : GoString) : Decidable (isPlainName name) := by
  unfold isPlainName; infer_instance

/-- The path of the entry called `name` of the directory `parent`, in clean form: `name`
itself when `parent` cleans to `.`, `/name` when it cleans to `/`, and the clean form of
`parent` followed by `/name` otherwise. -/
def entryPath (parent name : GoString) : GoString :=
  match cleanComps parent with
  | (rooted, []) => if rooted then '/' :: name else name
  | (rooted, c :: cs) => renderPath (rooted, c :: cs) ++ '/' :: name

/-- The path `child` is the entry called `name` of the directory `parent`. -/
def isEntryOf (parent child name : GoString) : Prop :=
  isPlainName name ∧ child = entryPath parent name

instance (parent child name : GoString) : Decidable (isEntryOf parent child name) := by
  unfold isEntryOf; infer_instance

/-- The value a string of decimal digits denotes. -/
def decimalValue (s : GoString) : Nat :=
  s.foldl (fun acc c => 10 * acc + (c.toNat - 48)) 0

/-- A sample `url.Parse`: the path is what follows the host of an `https://host/...` URL,
up to the query; other strings are taken as paths. -/
def demoUrlParse (u : GoString) : Option GoString :=
  let rest := if "https://".toList.isPrefixOf u then (u.drop 8).dropWhile (fun c => c ≠ '/')
    else u
  some (rest.takeWhile (fun c => c ≠ '?'))

/-! ## The environment: file system and network -/

/-- An effect on the outside world, as the program issues it. -/
inductive Event where
  /-- A call of `os.MkdirAll`. -/
  | mkdirAll (path : GoString)
  /-- A call of `os.Stat`. -/
  | stat (path : GoString)
  /-- A GET request (`client.Do` or `client.Get`). -/
  | httpGet (url : GoString)
  /-- A call of `os.Create`. -/
  | create (path : GoString)
  /-- A call of `io.Copy` into the file at `path`. -/
  | write (path : GoString)
deriving DecidableEq, Repr

/-- The events that write to the file system. -/
def Event.isWrite : Event → Bool
  | .mkdirAll _ => true
  | .create _ => true
  | .write _ => true
  | _ => false

/-- The events that reach the network. -/
def Event.isNetwork : Event → Bool
  | .httpGet _ => true
  | _ => false

/-- The answers of the operating system, the HTTP client and the parsers. `W` is the state
of the outside world, `B` the type of response bodies, `N` the type of document nodes.
A result `true` stands for a `nil` error. -/
structure Env (W B N : Type) where
  /-- The call `os.MkdirAll(path, 0755)`. -/
  mkdirAll : W → GoString → W × Bool
  /-- Whether `os.Stat(path)` returns a `nil` error. -/
  stat : W → GoString → Bool
  /-- A GET request: `none` for a transport error, else the status code and the body. -/
  httpGet : W → GoString → W × Option (Nat × B)
  /-- The call `os.Create(path)`. -/
  create : W → GoString → W × Bool
  /-- The call `io.Copy(file, body)` into the file created at `path`. -/
  copy : W → GoString → B → W × Bool
  /-- Whether `http.NewRequest("GET", url, nil)` returns a `nil` error. -/
  newRequest : GoString → Bool
  /-- The call `goquery.NewDocumentFromReader(body)`: `none` for an error. -/
  parseHTML : B → Option (Dom N)
  /-- The path component `url.Parse` finds: `none` for an error. -/
  urlParse : GoString → Option GoString

/-- The outside world together with the trace of the effects issued so far. -/
structure World (W : Type) where
  state : W
  log : List Event

/-- The errors the program builds with `fmt.Errorf`, by kind. -/
inductive Err where
  | createRequest
  | fetchPage
  | httpStatus (code : Nat)
  | parseHTML
  | noSongs
  | createAlbumDir
  | createOutputDir
  | noURL
  | download
  | createFile
  | writeFile
  /-- The wrapped error of line 427: `song '<title>': <cause>`. -/
  | song (title : GoString) (cause : Err)
  /-- The error of line 102: `<failed> download(s) failed`. -/
  | downloadsFailed (failed : Nat)
deriving DecidableEq, Repr

/-- The struct `SongSaraDownloader`, without the HTTP client (which is part of `Env`). -/
structure SongSaraDownloader where
  concurrency : Int
  outputDir : GoString
  verbose : Bool
  dryRun : Bool
  skipExisting : Bool
  timeout : Int

/-- The function `NewSongSaraDownloader`. -/
def NewSongSaraDownloader : SongSaraDownloader :=
  { concurrency := 10, outputDir := "downloads".toList, verbose := false, dryRun := false,
    skipExisting := true, timeout := 30 }

variable {W B : Type}

/-- The method `scrapeAlbum`: request, status check, parsing, extraction. -/
def scrapeAlbum (env : Env W B N) (w : World W) (pageURL : GoString) :
    World W × Except Err Album :=
  if env.newRequest pageURL = false then (w, .error .createRequest)
  else
    let resp := env.httpGet w.state pageURL
    let w : World W := { state := resp.1, log := w.log ++ [.httpGet pageURL] }
    match resp.2 with
    | none => (w, .error .fetchPage)
    | some (status, body) =>
      if status ≠ 200 then (w, .error (.httpStatus status))
      else
        match env.parseHTML body with
        | none => (w, .error .parseHTML)
        | some doc => (w, .ok (albumOfDocument doc))

/-- The method `downloadSong`. The result is the returned error, `none` for `nil`. -/
def downloadSong (env : Env W B N) (d : SongSaraDownloader) (w : World W) (song : Song)
    (albumDir : GoString) (trackNumber : Nat) : World W × Option Err :=
  if song.URL = [] then (w, some .noURL)
  else
    let filepath := songPath env.urlParse albumDir song trackNumber
    let skip := d.skipExisting && env.stat w.state filepath
    let w : World W := if d.skipExisting then { w with log := w.log ++ [.stat filepath] } else w
    if skip then (w, none)
    else if d.dryRun then (w, none)
    else
      let resp := env.httpGet w.state song.URL
      let w : World W := { state := resp.1, log := w.log ++ [.httpGet song.URL] }
      match resp.2 with
      | none => (w, some .download)
      | some (status, body) =>
        if status ≠ 200 then (w, some (.httpStatus status))
        else
          let file := env.create w.state filepath
          let w : World W := { state := file.1, log := w.log ++ [.create filepath] }
          if file.2 = false then (w, some .createFile)
          else
            let copied := env.copy w.state filepath body
            let w : World W := { state := copied.1, log := w.log ++ [.write filepath] }
            if copied.2 = false then (w, some .writeFile) else (w, none)

/-! ## The download engine (downloader.go 390-448) -/

/-- One invocation of `downloadSong` by a worker goroutine, with its arguments and result. -/
structure Call where
  index : Nat
  song : Song
  albumDir : GoString
  trackNumber : Nat
  result : Option Err
deriving DecidableEq, Repr

/-- The state of the worker goroutines of `downloadAlbum`, one per song, named by the
index of the song. A worker waits at `semaphore <- struct{}{}`, then runs while it holds
a slot of the channel, then is finished (its call is recorded in `calls`).
`errors` is the slice guarded by the mutex. -/
structure Pool (W : Type) where
  world : World W
  waiting : List Nat
  running : List Nat
  errors : List Err
  calls : List Call

/-- One step of worker `i`, if it can take one.
A running worker calls `downloadSong(s, albumDir, index+1)`, appends the wrapped error to
`errors` when there is one, and releases its slot. A waiting worker takes a slot when
fewer than `concurrency` slots of the channel are taken, and stays blocked otherwise.
The call of `downloadSong` is one step of the pool; since the answers of the environment
are arbitrary, so is the result of every call. -/
def stepWorker (env : Env W B N) (d : SongSaraDownloader) (songs : List Song)
    (albumDir : GoString) (p : Pool W) (i : Nat) : Pool W :=
  if i ∈ p.running then
    match songs[i]? with
    | none => p
    | some s =>
      let r := downloadSong env d p.world s albumDir (i + 1)
      { world := r.1
        waiting := p.waiting
        running := p.running.erase i
        errors := match r.2 with
          | some err => p.errors ++ [.song s.Title err]
          | none => p.errors
        calls := p.calls ++ [⟨i, s, albumDir, i + 1, r.2⟩] }
  else if i ∈ p.waiting then
    if (p.running.length : Int) < d.concurrency then
      { p with waiting := p.waiting.erase i, running := i :: p.running }
    else p
  else p

/-- The scheduler lets every worker that can take a step take it eventually: a running
worker finishes, then a waiting worker is admitted. Each round takes one step; when no
worker can move the state stays as it is. -/
def drain (env : Env W B N) (d : SongSaraDownloader) (songs : List Song)
    (albumDir : GoString) : Nat → Pool W → Pool W
  | 0, p => p
  | fuel + 1, p =>
    match p.running with
    | i :: _ => drain env d songs albumDir fuel (stepWorker env d songs albumDir p i)
    | [] =>
      match p.waiting with
      | i :: _ => drain env d songs albumDir fuel (stepWorker env d songs albumDir p i)
      | [] => p

/-- The workers of `downloadAlbum` under a schedule: all workers start waiting, the
workers named by `sched` take their steps in that order (any interleaving of the
goroutines), and the remaining steps are taken until no worker can move. -/
def runPool (env : Env W B N) (d : SongSaraDownloader) (songs : List Song)
    (albumDir : GoString) (w : World W) (sched : List Nat) : Pool W :=
  let p0 : Pool W :=
    { world := w, waiting := List.range songs.length, running := [], errors := [],
      calls := [] }
  drain env d songs albumDir (2 * songs.length)
    (sched.foldl (stepWorker env d songs albumDir) p0)

/-- How a call ends: it returns an error or `nil`, it panics, or it never returns. -/
inductive Outcome where
  | returned (err : Option Err)
  | panicked
  | blocked
deriving DecidableEq, Repr

/-- What a call of `downloadAlbum` leaves behind. -/
structure AlbumRun (W : Type) where
  world : World W
  outcome : Outcome
  /-- The result of `os.MkdirAll(albumDir)`, when it was called. -/
  dirCreated : Option Bool
  /-- The slice `errors` when the workers are done. -/
  errors : List Err
  /-- The calls of `downloadSong`, in the order they returned. -/
  calls : List Call

/-- The method `downloadAlbum`. `make(chan struct{}, n)` panics for negative `n`;
`wg.Wait()` returns when every worker is finished and blocks forever otherwise. -/
def downloadAlbum (env : Env W B N) (d : SongSaraDownloader) (w : World W) (album : Album)
    (sched : List Nat) : AlbumRun W :=
  if album.Songs.length = 0 then
    { world := w, outcome := .returned (some .noSongs), dirCreated := none, errors := [],
      calls := [] }
  else
    let albumDir := albumDirOf d.outputDir album.Title
    let made := env.mkdirAll w.state albumDir
    let w : World W := { state := made.1, log := w.log ++ [.mkdirAll albumDir] }
    if made.2 = false then
      { world := w, outcome := .returned (some .createAlbumDir), dirCreated := some false,
        errors := [], calls := [] }
    else if d.dryRun then
      { world := w, outcome := .returned none, dirCreated := some true, errors := [],
        calls := [] }
    else if d.concurrency < 0 then
      { world := w, outcome := .panicked, dirCreated := some true, errors := [], calls := [] }
    else
      let p := runPool env d album.Songs albumDir w sched
      { world := p.world
        outcome := if p.waiting = [] ∧ p.running = [] then .returned none else .blocked
        dirCreated := some true
        errors := p.errors
        calls := p.calls }

/-! ## The orchestrator (downloader.go 56-106) -/

/-- What happened to one URL of the run. -/
structure UrlTrace (W : Type) where
  /-- The position of the URL in the list. -/
  index : Nat
  url : GoString
  /-- The world when the loop reached the URL. -/
  before : World W
  /-- The result of `scrapeAlbum`. -/
  scrape : Except Err Album
  /-- The result of creating the album directory, when it was attempted. -/
  dirCreated : Option Bool
  /-- The world when the loop went on to the next URL. -/
  after : World W
  /-- Whether the URL was counted in `successfulDownloads` (else in `failedDownloads`). -/
  succeeded : Bool

/-- The variables of the loop of `Download`. -/
structure LoopState (W : Type) where
  world : World W
  successfulDownloads : Nat
  failedDownloads : Nat
  trace : List (UrlTrace W)

/-- The loop of `Download` over the URLs from position `i` on. The second component is
`some` when a call of `downloadAlbum` did not return, which ends the run there. -/
def downloadLoop (env : Env W B N) (d : SongSaraDownloader) (sched : Nat → List Nat) :
    Nat → List GoString → LoopState W → LoopState W × Option Outcome
  | _, [], st => (st, none)
  | i, url :: rest, st =>
    let scraped := scrapeAlbum env st.world url
    match scraped.2 with
    | .error err =>
      downloadLoop env d sched (i + 1) rest
        { world := scraped.1, successfulDownloads := st.successfulDownloads,
          failedDownloads := st.failedDownloads + 1,
          trace := st.trace ++ [⟨i, url, st.world, .error err, none, scraped.1, false⟩] }
    | .ok album =>
      let run := downloadAlbum env d scraped.1 album (sched i)
      match run.outcome with
      | .returned (some _) =>
        downloadLoop env d sched (i + 1) rest
          { world := run.world, successfulDownloads := st.successfulDownloads,
            failedDownloads := st.failedDownloads + 1,
            trace := st.trace ++
              [⟨i, url, st.world, .ok album, run.dirCreated, run.world, false⟩] }
      | .returned none =>
        downloadLoop env d sched (i + 1) rest
          { world := run.world, successfulDownloads := st.successfulDownloads + 1,
            failedDownloads := st.failedDownloads,
            trace := st.trace ++
              [⟨i, url, st.world, .ok album, run.dirCreated, run.world, true⟩] }
      | stuck => ({ st with world := run.world }, some stuck)

/-- What a call of `Download` leaves behind. -/
structure RunResult (W : Type) where
  world : World W
  totalURLs : Nat
  successfulDownloads : Nat
  failedDownloads : Nat
  outcome : Outcome
  trace : List (UrlTrace W)

/-- The method `Download`. `sched i` is the schedule of the workers of the album of the
URL at position `i`. -/
def Download (env : Env W B N) (d : SongSaraDownloader) (w : World W) (urls : List GoString)
    (sched : Nat → List Nat) : RunResult W :=
  let made := env.mkdirAll w.state d.outputDir
  let w : World W := { state := made.1, log := w.log ++ [.mkdirAll d.outputDir] }
  if made.2 = false then
    { world := w, totalURLs := 0, successfulDownloads := 0, failedDownloads := 0,
      outcome := .returned (some .createOutputDir), trace := [] }
  else
    let totalURLs := urls.length
    let looped := downloadLoop env d sched 0 urls
      { world := w, successfulDownloads := 0, failedDownloads := 0, trace := [] }
    match looped.2 with
    | some stuck =>
      { world := looped.1.world, totalURLs := totalURLs,
        successfulDownloads := looped.1.successfulDownloads,
        failedDownloads := looped.1.failedDownloads, outcome := stuck,
        trace := looped.1.trace }
    | none =>
      { world := looped.1.world, totalURLs := totalURLs,
        successfulDownloads := looped.1.successfulDownloads,
        failedDownloads := looped.1.failedDownloads,
        outcome := if looped.1.failedDownloads > 0
          then .returned (some (.downloadsFailed looped.1.failedDownloads))
          else .returned none,
        trace := looped.1.trace }

/-- The conditions under which a URL fails: its scrape fails, it yields no record, or the
album directory cannot be set up. -/
def UrlTrace.failureCondition (t : UrlTrace W) : Prop :=
  (∃ err, t.scrape = .error err) ∨ (∃ album, t.scrape = .ok album ∧ album.Songs = []) ∨
    t.dirCreated = some false

/-! ### A sample environment -/

/-- An environment where directories and files can always be written, no file exists
yet, every page is the sample page, and every GET answers 200 except for URLs that end
in `missing.mp3` or in `/404/`, which answer 404. -/
def demoEnv : Env Unit Unit Nat where
  mkdirAll _ _ := ((), true)
  stat _ _ := false
  httpGet _ url :=
    ((), some (if hasSuffix url "missing.mp3".toList || hasSuffix url "/404/".toList
      then 404 else 200, ()))
  create _ _ := ((), true)
  copy _ _ _ := ((), true)
  newRequest _ := true
  parseHTML _ := some demoDom
  urlParse := demoUrlParse

/-- The initial world: nothing has happened. -/
def world0 : World Unit :=
  { state := (), log := [] }

/-- An album of three songs; the second one is missing on the server. -/
def demoAlbum : Album :=
  { Title := "Demo Album".toList
    Songs := [⟨"Track One".toList, "https://x/a.mp3".toList⟩,
              ⟨"Gone".toList, "https://x/missing.mp3".toList⟩,
              ⟨"Track Two".toList, "https://x/b.flac".toList⟩] }

/-- The invariant of the worker pool: the waiting, the running and the finished workers
together are the workers `0 .. n-1`, each once; every recorded call is the call
`downloadSong(songs[i], albumDir, i+1)` of its worker `i`; and `errors` holds one wrapped
error for each call that failed, in the order the calls returned. -/
def PoolInv (env : Env W B N) (d : SongSaraDownloader) (songs : List Song)
    (albumDir : GoString) (p : Pool W) : Prop :=
  (p.waiting ++ p.running ++ p.calls.map Call.index).Perm (List.range songs.length) ∧
  (∀ c ∈ p.calls, songs[c.index]? = some c.song ∧ c.trackNumber = c.index + 1 ∧
    c.albumDir = albumDir ∧
    ∃ w, c.result = (downloadSong env d w c.song c.albumDir c.trackNumber).2) ∧
  p.errors = p.calls.filterMap (fun c => c.result.map (Err.song c.song.Title))

/-- A trace entry records what happened at its URL: `scrape` is the result of
`scrapeAlbum` in the world the loop was in; `dirCreated` is the result of `os.MkdirAll` on
the album directory in the world the scrape left, recorded exactly when the scrape
succeeded with at least one record; `after` is the world the scrape left, or the world
`downloadAlbum` left when it was called; and the URL counts as failed exactly under the
failure conditions. -/
def UrlTrace.faithful (env : Env W B N) (d : SongSaraDownloader) (sched : Nat → List Nat)
    (t : UrlTrace W) : Prop :=
  t.scrape = (scrapeAlbum env t.before t.url).2 ∧
  (match t.scrape with
   | .error _ => t.dirCreated = none ∧ t.after = (scrapeAlbum env t.before t.url).1
   | .ok album =>
     t.dirCreated =
       (if album.Songs = [] then none
        else some (env.mkdirAll (scrapeAlbum env t.before t.url).1.state
          (albumDirOf d.outputDir album.Title)).2) ∧
     t.after =
       (downloadAlbum env d (scrapeAlbum env t.before t.url).1 album (sched t.index)).world) ∧
  (t.succeeded = false ↔ t.failureCondition)

/-- The entries of a trace follow one another: the first starts in the world `start`,
each next one starts in the world the previous one left, and the last leaves `fin`. -/
def worldsChained : World W → List (UrlTrace W) → World W → Prop
  | start, [], fin => fin = start
  | start, t :: ts, fin => t.before = start ∧ worldsChained t.after ts fin

/-- A page whose title container holds two dots. -/
def dotsDom : Dom Nat where
  docFind q := if q = ".AL-Si" then [0] else []
  find _ _ := []
  attr _ _ := none
  text n := if n = 0 then "..".toList else []
  parent _ := none

/-! ## Theorems -/

/-! ### Sanitizer lemmas -/

theorem isReSpace_space : isReSpace ' ' = true := by decide

theorem isIllegal_space : isIllegal ' ' = false := by decide

theorem isSpace_of_isReSpace (c : Char) (h : isReSpace c = true) : isSpace c = true := by
  simp only [isReSpace, isSpace, Bool.or_eq_true, beq_iff_eq, Bool.and_eq_true,
    decide_eq_true_eq] at h ⊢
  omega

theorem mem_collapseAux (s : GoString) (b : Bool) (c : Char) (h : c ∈ collapseAux s b) :
    c = ' ' ∨ c ∈ s := by
  induction s generalizing b with
  | nil => simp [collapseAux] at h
  | cons a as ih =>
    unfold collapseAux at h
    split at h
    · split at h
      · rcases ih _ h with h1 | h1
        · exact Or.inl h1
        · exact Or.inr (List.mem_cons_of_mem _ h1)
      · rcases List.mem_cons.mp h with h1 | h1
        · exact Or.inl h1
        · rcases ih _ h1 with h2 | h2
          · exact Or.inl h2
          · exact Or.inr (List.mem_cons_of_mem _ h2)
    · rcases List.mem_cons.mp h with h1 | h1
      · exact Or.inr (h1 ▸ List.mem_cons_self _ _)
      · rcases ih _ h1 with h2 | h2
        · exact Or.inl h2
        · exact Or.inr (List.mem_cons_of_mem _ h2)

theorem mem_trimSpace (s : GoString) (c : Char) (h : c ∈ trimSpace s) : c ∈ s :=
  (List.dropWhile_sublist _).subset
    ((List.rdropWhile_prefix (p := isSpace) (l := s.dropWhile isSpace)).subset h)

/-- The head of the output produced inside a run is never matched by `\s`. -/
theorem collapseAux_true_head (s : GoString) :
    ∀ c ∈ (collapseAux s true).head?, isReSpace c = false := by
  induction s with
  | nil => simp [collapseAux]
  | cons a as ih =>
    unfold collapseAux
    by_cases ha : isReSpace a = true
    · simpa [ha] using ih
    · simp [ha]

/-- No two neighbours of the collapsed string are both spaces. -/
theorem collapseAux_chain (s : GoString) (b : Bool) :
    List.Chain' (fun x y => ¬ (x = ' ' ∧ y = ' ')) (collapseAux s b) := by
  induction s generalizing b with
  | nil => simp [collapseAux]
  | cons a as ih =>
    unfold collapseAux
    by_cases ha : isReSpace a = true
    · simp only [ha, if_true]
      cases b with
      | true => simpa using ih true
      | false =>
        simp only [Bool.false_eq_true, if_false]
        refine List.Chain'.cons' (ih true) ?_
        intro y hy hxy
        have := collapseAux_true_head as y hy
        rw [hxy.2, isReSpace_space] at this
        exact Bool.noConfusion this
    · simp only [ha, Bool.false_eq_true, if_false]
      refine List.Chain'.cons' (ih false) ?_
      intro y _ hxy
      exact ha (hxy.1 ▸ isReSpace_space)

theorem collapseAux_append_single (s : GoString) (b : Bool) (c : Char)
    (hc : isReSpace c = false) : collapseAux (s ++ [c]) b = collapseAux s b ++ [c] := by
  induction s generalizing b with
  | nil => simp [collapseAux, hc]
  | cons a as ih =>
    simp only [List.cons_append, collapseAux]
    by_cases ha : isReSpace a = true
    · cases b <;> simp [ha, ih]
    · simp [ha, ih]

/-- Collapsing is idempotent, in either scanning state. -/
theorem collapseAux_collapseAux (s : GoString) :
    (∀ b, collapseAux (collapseAux s b) false = collapseAux s b) ∧
      collapseAux (collapseAux s true) true = collapseAux s true := by
  induction s with
  | nil => simp [collapseAux]
  | cons a as ih =>
    by_cases ha : isReSpace a = true
    · refine ⟨fun b => ?_, ?_⟩
      · cases b with
        | true => simpa [collapseAux, ha] using ih.1 true
        | false => simp [collapseAux, ha, isReSpace_space, ih.2]
      · simpa [collapseAux, ha] using ih.2
    · refine ⟨fun b => ?_, ?_⟩
      · simp [collapseAux, ha, ih.1 false]
      · simp [collapseAux, ha, ih.1 false]

theorem trimSpace_head (s : GoString) : ∀ c ∈ (trimSpace s).head?, isSpace c = false := by
  intro c hc
  unfold trimSpace at hc
  obtain ⟨t, ht⟩ := List.rdropWhile_prefix (p := isSpace) (l := s.dropWhile isSpace)
  cases hr : List.rdropWhile isSpace (s.dropWhile isSpace) with
  | nil => simp [hr] at hc
  | cons a as =>
    rw [hr] at hc ht
    simp only [List.head?_cons, Option.mem_def, Option.some.injEq] at hc
    subst hc
    have h1 : (s.dropWhile isSpace).head? = some a := by rw [← ht]; rfl
    have h2 := List.head?_dropWhile_not isSpace s
    rw [h1] at h2
    simpa using h2

theorem trimSpace_last (s : GoString) : ∀ c ∈ (trimSpace s).getLast?, isSpace c = false := by
  intro c hc
  unfold trimSpace at hc
  have hne : List.rdropWhile isSpace (s.dropWhile isSpace) ≠ [] := by
    intro h; simp [h] at hc
  have h1 := List.rdropWhile_last_not isSpace (s.dropWhile isSpace) hne
  rw [List.getLast?_eq_getLast _ hne] at hc
  simp only [Option.mem_def, Option.some.injEq] at hc
  subst hc
  simpa using h1

theorem trimSpace_eq_self (s : GoString) (hh : ∀ c ∈ s.head?, isSpace c = false)
    (hl : ∀ c ∈ s.getLast?, isSpace c = false) : trimSpace s = s := by
  have h1 : s.dropWhile isSpace = s := by
    cases s with
    | nil => rfl
    | cons a as =>
      have := hh a (by simp)
      simp [List.dropWhile, this]
  unfold trimSpace
  rw [h1, List.rdropWhile_eq_self_iff]
  intro hne
  have := hl (s.getLast hne) (by simp [List.getLast?_eq_getLast _ hne])
  simp [this]

theorem collapseSpaces_head (s : GoString) (hh : ∀ c ∈ s.head?, isSpace c = false) :
    (collapseSpaces s).head? = s.head? := by
  cases s with
  | nil => rfl
  | cons a as =>
    have h1 := hh a (by simp)
    have h2 : isReSpace a = false := by
      cases h : isReSpace a with
      | false => rfl
      | true => rw [isSpace_of_isReSpace a h] at h1; exact Bool.noConfusion h1
    simp [collapseSpaces, collapseAux, h2]

theorem collapseSpaces_last (s : GoString) (hl : ∀ c ∈ s.getLast?, isSpace c = false) :
    (collapseSpaces s).getLast? = s.getLast? := by
  rcases List.eq_nil_or_concat s with h | ⟨l, c, h⟩
  · subst h; rfl
  · subst h
    have h1 := hl c (by simp)
    have h2 : isReSpace c = false := by
      cases h : isReSpace c with
      | false => rfl
      | true => rw [isSpace_of_isReSpace c h] at h1; exact Bool.noConfusion h1
    simp [collapseSpaces, collapseAux_append_single _ _ _ h2]

theorem sanitizeFilename_not_illegal (s : GoString) :
    ∀ c ∈ sanitizeFilename s, isIllegal c = false := by
  intro c hc
  rcases mem_collapseAux _ _ _ hc with h | h
  · rw [h]; exact isIllegal_space
  · have := mem_trimSpace _ _ h
    simpa [removeIllegal] using (List.mem_filter.mp this).2

theorem sanitizeFilename_head (s : GoString) :
    ∀ c ∈ (sanitizeFilename s).head?, isSpace c = false := by
  unfold sanitizeFilename
  rw [collapseSpaces_head _ (trimSpace_head _)]
  exact trimSpace_head _

theorem sanitizeFilename_last (s : GoString) :
    ∀ c ∈ (sanitizeFilename s).getLast?, isSpace c = false := by
  unfold sanitizeFilename
  rw [collapseSpaces_last _ (trimSpace_last _)]
  exact trimSpace_last _

/-! ### Claims about the sanitizer -/

/-- C1: `sanitizeFilename` is idempotent: applying it to its own result changes
nothing, for every string. -/
theorem sanitizeFilename_idempotent (s : GoString) :
    sanitizeFilename (sanitizeFilename s) = sanitizeFilename s := by
  have h1 : removeIllegal (sanitizeFilename s) = sanitizeFilename s := by
    unfold removeIllegal
    rw [List.filter_eq_self]
    intro c hc
    simp [sanitizeFilename_not_illegal s c hc]
  have h2 : trimSpace (sanitizeFilename s) = sanitizeFilename s :=
    trimSpace_eq_self _ (sanitizeFilename_head s) (sanitizeFilename_last s)
  have h3 : sanitizeFilename (sanitizeFilename s) =
      collapseSpaces (trimSpace (removeIllegal (sanitizeFilename s))) := rfl
  rw [h3, h1, h2]
  exact (collapseAux_collapseAux _).1 false

/-- C2: the result of `sanitizeFilename` contains none of `/ * ? : " < > |`, contains
no two consecutive space characters, and neither starts nor ends with whitespace
(in the sense of `unicode.IsSpace`, which includes the class `\s`). -/
theorem sanitizeFilename_safe (s : GoString) :
    (∀ c ∈ sanitizeFilename s, isIllegal c = false) ∧
    ¬ ([' ', ' '] <:+: sanitizeFilename s) ∧
    (∀ c ∈ (sanitizeFilename s).head?, isSpace c = false ∧ isReSpace c = false) ∧
    (∀ c ∈ (sanitizeFilename s).getLast?, isSpace c = false ∧ isReSpace c = false) := by
  have hre : ∀ c, isSpace c = false → isReSpace c = false := by
    intro c hc
    cases h : isReSpace c with
    | false => rfl
    | true => rw [isSpace_of_isReSpace c h] at hc; exact Bool.noConfusion hc
  refine ⟨sanitizeFilename_not_illegal s, ?_, ?_, ?_⟩
  · intro hinf
    have hch := List.Chain'.infix (collapseAux_chain (trimSpace (removeIllegal s)) false) hinf
    simp at hch
  · intro c hc
    exact ⟨sanitizeFilename_head s c hc, hre c (sanitizeFilename_head s c hc)⟩
  · intro c hc
    exact ⟨sanitizeFilename_last s c hc, hre c (sanitizeFilename_last s c hc)⟩

/-! ### Extraction lemmas -/

theorem eachAppend_eq (extract : N → Song) (songs : List Song) (sel : List N) :
    eachAppend extract songs sel = songs ++ validRecords extract sel := by
  unfold eachAppend validRecords
  induction sel generalizing songs with
  | nil => simp
  | cons n ns ih =>
    simp only [List.foldl_cons, List.map_cons]
    rw [ih]
    by_cases h : (extract n).Title ≠ [] ∧ (extract n).URL ≠ []
    · simp [h, List.filter_cons]
    · simp [h, List.filter_cons]

theorem firstNonEmpty_append {α : Type} (a b : List (List α)) :
    firstNonEmpty (a ++ b) =
      if (firstNonEmpty a).length > 0 then firstNonEmpty a else firstNonEmpty b := by
  induction a with
  | nil => simp [firstNonEmpty]
  | cons l rest ih =>
    by_cases h : l.length > 0
    · simp [firstNonEmpty, h]
    · simp [firstNonEmpty, h, ih]

theorem alternativeLoop_eq (dom : Dom N) (qs : List String) :
    alternativeLoop dom [] qs =
      firstNonEmpty (qs.map (fun q =>
        validRecords (extractSongFromElement dom) (dom.docFind q))) := by
  induction qs with
  | nil => rfl
  | cons q rest ih =>
    simp only [alternativeLoop, eachAppend_eq, List.nil_append, List.map_cons, firstNonEmpty]
    by_cases h : (validRecords (extractSongFromElement dom) (dom.docFind q)).length > 0
    · simp [h]
    · have h0 : validRecords (extractSongFromElement dom) (dom.docFind q) = [] := by
        cases hv : validRecords (extractSongFromElement dom) (dom.docFind q) with
        | nil => rfl
        | cons a as => simp [hv] at h
      simp [h0, ih]

theorem extractSongs_eq_firstNonEmpty (dom : Dom N) :
    extractSongs dom = firstNonEmpty (strategyOutputs dom) := by
  unfold extractSongs strategyOutputs strategy1
  simp only [eachAppend_eq, List.nil_append]
  generalize validRecords (extractSongFromElement dom)
    (dom.docFind "#aramplayer .audioplayer-audios li") = s1
  generalize validRecords (extractSongFromAudioElement dom) (dom.docFind "audio") = s3
  generalize validRecords (extractSongFromLink dom) (dom.docFind
    "a[href*='.mp3'], a[href*='.m4a'], a[href*='.wav'], a[href*='.flac']") = s4
  rw [List.append_assoc, firstNonEmpty_append, firstNonEmpty_append]
  cases s1 with
  | cons a as => simp [firstNonEmpty]
  | nil =>
    simp only [List.length_nil, if_true, alternativeLoop_eq]
    generalize songSelectors.map (fun q =>
      validRecords (extractSongFromElement dom) (dom.docFind q)) = alt
    cases hA : firstNonEmpty alt with
    | cons a as => simp [firstNonEmpty]
    | nil =>
      cases s3 with
      | cons a as => simp [firstNonEmpty]
      | nil => cases s4 <;> simp [firstNonEmpty]

theorem titleFallback_eq (dom : Dom N) (qs : List String) :
    titleFallback dom qs =
      match (qs.map (fun q => selText dom (selFirst (dom.docFind q)))).find? (fun t => t ≠ []) with
      | some t => trimSpace t
      | none => [] := by
  induction qs with
  | nil => rfl
  | cons q rest ih =>
    by_cases h : selText dom (selFirst (dom.docFind q)) = []
    · simp [titleFallback, h, ih]
    · simp [titleFallback, h]

theorem extractAlbumTitle_eq (dom : Dom N) :
    extractAlbumTitle dom =
      match (titleSources dom).find? (fun t => t ≠ []) with
      | some t => trimSpace t
      | none => [] := by
  unfold extractAlbumTitle titleSources
  by_cases h1 : selText dom (dom.docFind ".AL-Si") = []
  · by_cases h2 : selText dom (selFirst (dom.docFind "h1")) = []
    · by_cases h3 : attrOr dom (dom.docFind "meta[property='og:title']") "content" [] = []
      · by_cases h4 : selText dom (dom.docFind "title") = []
        · simp [h1, h2, h3, h4, titleFallback_eq]
        · simp [h1, h2, h3, h4]
      · simp [h1, h2, h3]
    · simp [h1, h2]
  · simp [h1]

/-! ### Claims about extraction -/

/-- C3: extraction cascade priority. The result of `extractSongs` is the output of the
first strategy, in the fixed order, that yields at least one valid record, and is empty when
none does; in particular, when the site-specific player list yields a valid record the
result is exactly its valid records, in document order, whatever the later strategies
would match. -/
theorem extractSongs_cascade_priority (dom : Dom N) :
    extractSongs dom = firstNonEmpty (strategyOutputs dom) ∧
    (strategy1 dom ≠ [] → extractSongs dom = strategy1 dom) ∧
    ((∀ l ∈ strategyOutputs dom, l = []) → extractSongs dom = []) := by
  refine ⟨extractSongs_eq_firstNonEmpty dom, ?_, ?_⟩
  · intro h
    rw [extractSongs_eq_firstNonEmpty]
    cases h1 : strategy1 dom with
    | nil => exact absurd h1 h
    | cons a as => simp [strategyOutputs, firstNonEmpty, h1]
  · intro h
    rw [extractSongs_eq_firstNonEmpty]
    generalize strategyOutputs dom = outs at h
    induction outs with
    | nil => rfl
    | cons l rest ih =>
      have hl : l = [] := h l (List.mem_cons_self _ _)
      subst hl
      simpa [firstNonEmpty] using ih (fun l hl => h l (List.mem_cons_of_mem _ hl))

/-- Witness for C3: on the sample page the player list, the bare `li` selector and the
audio-link selector all match, and the two player-list records are returned. -/
theorem extractSongs_cascade_priority_witness :
    strategy1 demoDom ≠ [] ∧
    extractSongs demoDom =
      [⟨"Track One".toList, "https://x/a.mp3".toList⟩,
       ⟨"Track Two".toList, "https://x/b.flac".toList⟩] ∧
    validRecords (extractSongFromLink demoDom) (demoDom.docFind
      "a[href*='.mp3'], a[href*='.m4a'], a[href*='.wav'], a[href*='.flac']") =
      [⟨"Bonus".toList, "https://x/c.mp3".toList⟩] :=
  ⟨by decide,
   ((extractSongs_cascade_priority demoDom).2.1 (by decide)).trans (by decide),
   by decide⟩

/-- Counterexample to C10 as stated: a title container holding only blanks stops the
cascade, so the album is titled `Unknown Album` although the first heading holds a title
that is non-empty after trimming. -/
theorem title_cascade_blank_container :
    (albumOfDocument blankContainerDom).Title = "Unknown Album".toList ∧
    firstTrimmedTitle blankContainerDom = "Real Title".toList ∧
    (albumOfDocument blankContainerDom).Title ≠ firstTrimmedTitle blankContainerDom := by
  decide

/-- C10, amended: the title is decided by the first source, in the fixed priority order,
whose text is non-empty before trimming: it is that text trimmed, or `Unknown Album` when
the trimmed text is empty; it is `Unknown Album` when no source has text; it is never
empty. -/
theorem title_cascade (dom : Dom N) :
    (albumOfDocument dom).Title =
      (match (titleSources dom).find? (fun t => t ≠ []) with
       | some t => if trimSpace t = [] then "Unknown Album".toList else trimSpace t
       | none => "Unknown Album".toList) ∧
    (albumOfDocument dom).Title ≠ [] := by
  unfold albumOfDocument
  simp only [extractAlbumTitle_eq]
  cases (titleSources dom).find? (fun t => t ≠ []) with
  | none => simp
  | some t =>
    by_cases h : trimSpace t = []
    · simp [h]
    · simp [h]

/-! ### File extension -/

theorem audioExtensions_exclusive (path a b : GoString) (ha : a ∈ audioExtensions)
    (hb : b ∈ audioExtensions) (hpa : a <:+ path) (hpb : b <:+ path) : a = b := by
  have key : ∀ x ∈ audioExtensions, ∀ y ∈ audioExtensions, x.length ≤ y.length →
      x <:+ y → x = y := by decide
  rcases Nat.le_total a.length b.length with h | h
  · exact key a ha b hb h (List.suffix_of_suffix_length_le hpa hpb h)
  · exact (key b hb a ha h (List.suffix_of_suffix_length_le hpb hpa h)).symm

theorem getFileExtension_some (urlParse : GoString → Option GoString) (u path : GoString)
    (hp : urlParse u = some path) :
    (getFileExtension urlParse u ∈ audioExtensions ∧ getFileExtension urlParse u <:+ path) ∨
    (getFileExtension urlParse u = [] ∧ ∀ e ∈ audioExtensions, ¬ e <:+ path) := by
  unfold getFileExtension hasSuffix
  simp only [hp, List.isSuffixOf_iff_suffix]
  by_cases h1 : ".mp3".toList <:+ path
  · left; simp only [h1, if_true]; exact ⟨by decide, trivial⟩
  · by_cases h2 : ".m4a".toList <:+ path
    · left; simp only [h1, h2, if_true, if_false]; exact ⟨by decide, trivial⟩
    · by_cases h3 : ".wav".toList <:+ path
      · left; simp only [h1, h2, h3, if_true, if_false]; exact ⟨by decide, trivial⟩
      · by_cases h4 : ".flac".toList <:+ path
        · left; simp only [h1, h2, h3, h4, if_true, if_false]; exact ⟨by decide, trivial⟩
        · right
          simp only [h1, h2, h3, h4, if_false, true_and]
          intro e he
          simp only [audioExtensions, List.mem_cons, List.mem_singleton, List.not_mem_nil,
            or_false] at he
          rcases he with rfl | rfl | rfl | rfl <;> assumption

theorem fileExtension_mem (urlParse : GoString → Option GoString) (u : GoString) :
    fileExtension urlParse u ∈ audioExtensions := by
  have hnil : ([] : GoString) ∉ audioExtensions := by decide
  cases hp : urlParse u with
  | none => simp only [fileExtension, getFileExtension, hp, if_true]; decide
  | some path =>
    rcases getFileExtension_some urlParse u path hp with ⟨h1, _⟩ | ⟨h1, _⟩
    · have hne : getFileExtension urlParse u ≠ [] := fun h => hnil (h ▸ h1)
      simpa [fileExtension, hne] using h1
    · simp only [fileExtension, h1, if_true]; decide

/-- C7: extension resolution. The extension used for a file is one of `.mp3`, `.m4a`,
`.wav`, `.flac`; it is the member of that set the path component of the URL ends with
when there is one, and `.mp3` when there is none or the URL cannot be parsed. -/
theorem fileExtension_resolution (urlParse : GoString → Option GoString) (u : GoString) :
    fileExtension urlParse u ∈ audioExtensions ∧
    (∀ path, urlParse u = some path → ∀ e ∈ audioExtensions, e <:+ path →
      fileExtension urlParse u = e) ∧
    (∀ path, urlParse u = some path → (∀ e ∈ audioExtensions, ¬ e <:+ path) →
      fileExtension urlParse u = ".mp3".toList) ∧
    (urlParse u = none → fileExtension urlParse u = ".mp3".toList) := by
  have hnil : ([] : GoString) ∉ audioExtensions := by decide
  refine ⟨fileExtension_mem urlParse u, ?_, ?_, ?_⟩
  · intro path hp e he hs
    rcases getFileExtension_some urlParse u path hp with ⟨h1, h2⟩ | ⟨_, h2⟩
    · have hne : getFileExtension urlParse u ≠ [] := fun h => hnil (h ▸ h1)
      simp only [fileExtension, hne, if_false]
      exact audioExtensions_exclusive path _ _ h1 he h2 hs
    · exact absurd hs (h2 e he)
  · intro path hp hnone
    rcases getFileExtension_some urlParse u path hp with ⟨h1, h2⟩ | ⟨h1, _⟩
    · exact absurd h2 (hnone _ h1)
    · simp [fileExtension, h1]
  · intro hp
    simp [fileExtension, getFileExtension, hp]

/-- Witness for C7: a URL whose path ends in `.flac` (before a query string), one with no
audio suffix, and a parser that fails. -/
theorem fileExtension_resolution_witness :
    fileExtension demoUrlParse "https://x/b.flac?dl=1".toList = ".flac".toList ∧
    fileExtension demoUrlParse "https://x/stream".toList = ".mp3".toList ∧
    fileExtension (fun _ => none) "::".toList = ".mp3".toList :=
  ⟨(fileExtension_resolution demoUrlParse "https://x/b.flac?dl=1".toList).2.1
      "/b.flac".toList (by decide) ".flac".toList (by decide) (by decide),
   (fileExtension_resolution demoUrlParse "https://x/stream".toList).2.2.1
      "/stream".toList (by decide) (by decide),
   (fileExtension_resolution (fun _ => none) "::".toList).2.2.2 rfl⟩

/-! ### File names -/

theorem digitChar_toNat (n : Nat) : (digitChar n).toNat = 48 + n % 10 := by
  have key : ∀ k < 10, (Char.ofNat (48 + k)).toNat = 48 + k := by decide
  exact key (n % 10) (Nat.mod_lt _ (by decide))

theorem digitChar_isDigit (n : Nat) : (digitChar n).isDigit = true := by
  have key : ∀ k < 10, (Char.ofNat (48 + k)).isDigit = true := by decide
  exact key (n % 10) (Nat.mod_lt _ (by decide))

theorem decimalAux_isDigit (fuel n : Nat) (acc : GoString)
    (hacc : ∀ c ∈ acc, c.isDigit = true) : ∀ c ∈ decimalAux fuel n acc, c.isDigit = true := by
  induction fuel generalizing n acc with
  | zero => simpa [decimalAux] using hacc
  | succ k ih =>
    have hcons : ∀ c ∈ digitChar n :: acc, c.isDigit = true := by
      intro c hc
      rcases List.mem_cons.mp hc with h | h
      · rw [h]; exact digitChar_isDigit n
      · exact hacc c h
    unfold decimalAux
    split
    · exact hcons
    · exact ih _ _ hcons

theorem decimalAux_length (fuel n : Nat) (acc : GoString) :
    acc.length ≤ (decimalAux fuel n acc).length := by
  induction fuel generalizing n acc with
  | zero => simp [decimalAux]
  | succ k ih =>
    unfold decimalAux
    split
    · simp
    · exact Nat.le_trans (by simp) (ih _ _)

theorem decimalAux_value (fuel n : Nat) (acc : GoString) (h : n < fuel) :
    (decimalAux fuel n acc).foldl (fun a c => 10 * a + (c.toNat - 48)) 0 =
      acc.foldl (fun a c => 10 * a + (c.toNat - 48)) n := by
  induction fuel generalizing n acc with
  | zero => omega
  | succ k ih =>
    unfold decimalAux
    split
    · rename_i h0
      have : n % 10 = n := Nat.mod_eq_of_lt (by omega)
      simp [List.foldl_cons, digitChar_toNat, this]
    · rename_i h0
      rw [ih (n / 10) _ (by omega)]
      simp only [List.foldl_cons, digitChar_toNat]
      congr 1
      omega

theorem decimal_length_ge_three (n : Nat) (h : 100 ≤ n) : 3 ≤ (decimal n).length := by
  obtain ⟨k, rfl⟩ : ∃ k, n = k + 2 := ⟨n - 2, by omega⟩
  have h1 : (k + 2) / 10 ≠ 0 := by omega
  have h2 : (k + 2) / 10 / 10 ≠ 0 := by omega
  unfold decimal
  rw [show k + 2 + 1 = (k + 1) + 1 + 1 from rfl]
  rw [decimalAux, if_neg h1, decimalAux, if_neg h2, decimalAux]
  split
  · simp
  · exact Nat.le_trans (by simp) (decimalAux_length _ _ _)

theorem fmt02d_small : ∀ n ≤ 99, fmt02d n = [digitChar (n / 10), digitChar n] := by
  decide

theorem fmt02d_length (n : Nat) : 2 ≤ (fmt02d n).length := by
  simp only [fmt02d, List.length_append, List.length_replicate]
  omega

theorem fmt02d_isDigit (n : Nat) : ∀ c ∈ fmt02d n, c.isDigit = true := by
  intro c hc
  rcases List.mem_append.mp hc with h | h
  · rw [(List.mem_replicate.mp h).2]; decide
  · exact decimalAux_isDigit _ _ _ (by simp) c h

theorem fmt02d_value (n : Nat) : decimalValue (fmt02d n) = n := by
  have h0 : ∀ k : Nat, (List.replicate k '0').foldl
      (fun a c => 10 * a + (c.toNat - 48)) 0 = 0 := by
    intro k
    induction k with
    | zero => rfl
    | succ k ih => simpa [List.replicate_succ] using ih
  unfold decimalValue fmt02d
  rw [List.foldl_append, h0]
  exact decimalAux_value (n + 1) n [] (Nat.lt_succ_self n)

/-- Counterexample to C6 as stated: the hundredth record of a collection gets a prefix of
three digits, so its file name is not a prefix of two characters followed by the rest. -/
theorem songFilename_track_100 :
    songFilename demoUrlParse ⟨"a".toList, "https://x/a.mp3".toList⟩ 100 =
      "100 - a.mp3".toList ∧
    ¬ ∃ p : GoString, p.length = 2 ∧
      songFilename demoUrlParse ⟨"a".toList, "https://x/a.mp3".toList⟩ 100 =
        p ++ " - ".toList ++ sanitizeFilename "a".toList ++
          fileExtension demoUrlParse "https://x/a.mp3".toList := by
  refine ⟨by decide, ?_⟩
  rintro ⟨p, hp, h⟩
  have h1 : songFilename demoUrlParse ⟨"a".toList, "https://x/a.mp3".toList⟩ 100 =
      "100 - a.mp3".toList := by decide
  have h2 : " - ".toList ++ sanitizeFilename "a".toList ++
      fileExtension demoUrlParse "https://x/a.mp3".toList = " - a.mp3".toList := by decide
  rw [h1, List.append_assoc, List.append_assoc, ← List.append_assoc " - ".toList, h2] at h
  have := congrArg List.length h
  simp [hp] at this

/-- C6, amended: the file name of the record at position `n` is the decimal rendering of
`n` padded with zeros to at least two digits (a string of digits denoting `n`: exactly the
two digits of `n` when `n ≤ 99`, the unpadded rendering of three or more digits when
`n ≥ 100`), followed by ` - `, the sanitized title and the resolved extension. -/
theorem songFilename_format (urlParse : GoString → Option GoString) (song : Song) (n : Nat) :
    songFilename urlParse song n =
      fmt02d n ++ " - ".toList ++ sanitizeFilename song.Title ++
        fileExtension urlParse song.URL ∧
    (∀ c ∈ fmt02d n, c.isDigit = true) ∧
    decimalValue (fmt02d n) = n ∧
    (n ≤ 99 → fmt02d n = [digitChar (n / 10), digitChar n]) ∧
    (100 ≤ n → fmt02d n = decimal n ∧ 3 ≤ (fmt02d n).length) := by
  refine ⟨rfl, fmt02d_isDigit n, fmt02d_value n, fmt02d_small n, ?_⟩
  intro h
  have h3 := decimal_length_ge_three n h
  have : fmt02d n = decimal n := by
    unfold fmt02d
    rw [show 2 - (decimal n).length = 0 by omega]
    rfl
  exact ⟨this, this ▸ h3⟩

/-- Witness for C6: the seventh and the hundredth track. -/
theorem songFilename_format_witness :
    fmt02d 7 = "07".toList ∧ (fmt02d 100 = "100".toList ∧ 3 ≤ (fmt02d 100).length) :=
  ⟨((songFilename_format demoUrlParse ⟨[], []⟩ 7).2.2.2.1 (by decide)).trans (by decide),
   ((songFilename_format demoUrlParse ⟨[], []⟩ 100).2.2.2.2 (by decide)).1.trans (by decide),
   ((songFilename_format demoUrlParse ⟨[], []⟩ 100).2.2.2.2 (by decide)).2⟩

/-! ### Paths -/

theorem splitSlash_ne_nil (s : GoString) : splitSlash s ≠ [] := by
  cases s with
  | nil => simp [splitSlash]
  | cons c cs =>
    unfold splitSlash
    split
    · simp
    · split <;> simp

theorem splitSlash_append_slash (a b : GoString) :
    splitSlash (a ++ '/' :: b) = splitSlash a ++ splitSlash b := by
  induction a with
  | nil => simp [splitSlash]
  | cons c cs ih =>
    by_cases hc : c = '/'
    · simp [splitSlash, hc, ih]
    · cases hs : splitSlash cs with
      | nil => exact absurd hs (splitSlash_ne_nil cs)
      | cons x xs => simp [splitSlash, hc, ih, hs]

theorem splitSlash_plain (s : GoString) (h : '/' ∉ s) : splitSlash s = [s] := by
  induction s with
  | nil => rfl
  | cons c cs ih =>
    have hc : c ≠ '/' := fun e => h (e ▸ List.mem_cons_self _ _)
    have hcs : '/' ∉ cs := fun e => h (List.mem_cons_of_mem _ e)
    simp [splitSlash, hc, ih hcs]

theorem cleanStep_plain (rooted : Bool) (stack : List GoString) (name : GoString)
    (h : isPlainName name) : cleanStep rooted stack name = name :: stack := by
  obtain ⟨h1, h2, h3, _⟩ := h
  have h2' : name ≠ ['.'] := h2
  have h3' : name ≠ ['.', '.'] := h3
  simp [cleanStep, h1, h2', h3']

theorem cleanComps_entry (parent name : GoString) (hp : parent ≠ []) (h : isPlainName name) :
    cleanComps (parent ++ '/' :: name) =
      ((cleanComps parent).1, (cleanComps parent).2 ++ [name]) := by
  have hhead : (parent ++ '/' :: name).head? = parent.head? := by
    cases parent with
    | nil => exact absurd rfl hp
    | cons c cs => rfl
  unfold cleanComps
  simp only [hhead, splitSlash_append_slash, splitSlash_plain name h.2.2.2, List.foldl_append,
    List.foldl_cons, List.foldl_nil, cleanStep_plain _ _ _ h, List.reverse_cons]

theorem cleanComps_plain (name : GoString) (h : isPlainName name) :
    cleanComps name = (false, [name]) := by
  have hhead : name.head? ≠ some '/' := by
    cases name with
    | nil => simp
    | cons c cs =>
      intro e
      simp only [List.head?_cons, Option.some.injEq] at e
      exact h.2.2.2 (e ▸ List.mem_cons_self _ _)
  unfold cleanComps
  simp [hhead, splitSlash_plain name h.2.2.2, cleanStep_plain _ _ _ h]

theorem intercalate_snoc (sep x : GoString) (c : GoString) (cs : List GoString) :
    List.intercalate sep (c :: cs ++ [x]) = List.intercalate sep (c :: cs) ++ sep ++ x := by
  induction cs generalizing c with
  | nil => simp [List.intercalate, List.intersperse]
  | cons d ds ih =>
    have h1 : List.intercalate sep (c :: d :: ds ++ [x]) =
        c ++ sep ++ List.intercalate sep (d :: ds ++ [x]) := by
      simp [List.intercalate, List.intersperse]
    have h2 : List.intercalate sep (c :: d :: ds) =
        c ++ sep ++ List.intercalate sep (d :: ds) := by
      simp [List.intercalate, List.intersperse]
    rw [h1, h2, ih]
    simp [List.append_assoc]

theorem renderPath_snoc (rooted : Bool) (c : GoString) (cs : List GoString) (name : GoString) :
    renderPath (rooted, c :: cs ++ [name]) = renderPath (rooted, c :: cs) ++ '/' :: name := by
  cases rooted with
  | true =>
    show '/' :: List.intercalate ['/'] (c :: cs ++ [name]) = _
    rw [intercalate_snoc]
    simp [renderPath]
  | false =>
    show List.intercalate ['/'] (c :: cs ++ [name]) = _
    rw [intercalate_snoc]
    simp [renderPath]

theorem renderPath_entry (parent name : GoString) :
    renderPath ((cleanComps parent).1, (cleanComps parent).2 ++ [name]) =
      entryPath parent name := by
  unfold entryPath
  rcases hc : cleanComps parent with ⟨rooted, cs⟩
  cases cs with
  | nil => cases rooted <;> simp [renderPath, List.intercalate, List.intersperse]
  | cons c cs => exact renderPath_snoc rooted c cs name

/-- Joining a directory and a plain name gives the entry of that name in the directory. -/
theorem filepathJoin_entry (parent name : GoString) (h : isPlainName name) :
    filepathJoin [parent, name] = entryPath parent name := by
  by_cases hp : parent = []
  · subst hp
    have h1 : filepathJoin [[], name] = filepathClean name := by
      simp [filepathJoin, List.dropWhile, h.1, List.intercalate, List.intersperse]
    rw [h1, filepathClean, cleanComps_plain name h]
    simp [entryPath, cleanComps, splitSlash, cleanStep, renderPath, List.intercalate,
      List.intersperse]
  · have h1 : filepathJoin [parent, name] = filepathClean (parent ++ '/' :: name) := by
      simp [filepathJoin, List.dropWhile, hp, List.intercalate, List.intersperse]
    rw [h1, filepathClean, cleanComps_entry parent name hp h, renderPath_entry]

theorem songFilename_plain (urlParse : GoString → Option GoString) (song : Song) (n : Nat) :
    isPlainName (songFilename urlParse song n) := by
  have hlen : 5 ≤ (songFilename urlParse song n).length := by
    have := fmt02d_length n
    simp only [songFilename, List.length_append]
    have h3 : " - ".toList.length = 3 := rfl
    omega
  have hext : ∀ e ∈ audioExtensions, '/' ∉ e := by decide
  refine ⟨?_, ?_, ?_, ?_⟩
  · intro h; rw [h] at hlen; simp at hlen
  · intro h; rw [h] at hlen; exact absurd hlen (by decide)
  · intro h; rw [h] at hlen; exact absurd hlen (by decide)
  · intro h
    simp only [songFilename, List.mem_append] at h
    rcases h with ((h | h) | h) | h
    · exact absurd (fmt02d_isDigit n _ h) (by decide)
    · exact absurd h (by decide)
    · exact absurd (sanitizeFilename_not_illegal _ _ h) (by decide)
    · exact hext _ (fileExtension_mem urlParse song.URL) h

/-! ### The worker pool -/

theorem stepWorker_inv (env : Env W B N) (d : SongSaraDownloader) (songs : List Song)
    (albumDir : GoString) (p : Pool W) (i : Nat) (h : PoolInv env d songs albumDir p) :
    PoolInv env d songs albumDir (stepWorker env d songs albumDir p i) := by
  obtain ⟨hperm, hcalls, herr⟩ := h
  unfold stepWorker
  by_cases hr : i ∈ p.running
  · simp only [hr, if_true]
    cases hs : songs[i]? with
    | none => exact ⟨hperm, hcalls, herr⟩
    | some s =>
      refine ⟨?_, ?_, ?_⟩
      · have h1 : p.running.Perm (i :: p.running.erase i) := List.perm_cons_erase hr
        have h2 : (p.running.erase i ++ (p.calls.map Call.index ++ [i])).Perm
            (p.running ++ p.calls.map Call.index) := by
          rw [← List.append_assoc]
          exact (List.perm_append_singleton i _).trans (h1.symm.append_right _)
        simp only [List.map_append, List.map_cons, List.map_nil, List.append_assoc] at hperm ⊢
        exact (h2.append_left p.waiting).trans hperm
      · intro c hc
        rcases List.mem_append.mp hc with hc | hc
        · exact hcalls c hc
        · rw [List.mem_singleton.mp hc]
          exact ⟨hs, rfl, rfl, p.world, rfl⟩
      · simp only [List.filterMap_append, ← herr]
        cases hres : (downloadSong env d p.world s albumDir (i + 1)).2 with
        | none => simp [List.filterMap_cons, hres]
        | some e => simp [List.filterMap_cons, hres]
  · simp only [hr, if_false]
    by_cases hw : i ∈ p.waiting
    · simp only [hw, if_true]
      by_cases hcap : (p.running.length : Int) < d.concurrency
      · simp only [hcap, if_true]
        refine ⟨?_, hcalls, herr⟩
        have h1 : p.waiting.Perm (i :: p.waiting.erase i) := List.perm_cons_erase hw
        have h2 : (p.waiting.erase i ++ i :: p.running).Perm (p.waiting ++ p.running) :=
          List.perm_middle.trans (h1.symm.append_right _)
        exact (h2.append_right _).trans hperm
      · simp only [hcap, if_false]
        exact ⟨hperm, hcalls, herr⟩
    · simp only [hw, if_false]
      exact ⟨hperm, hcalls, herr⟩

theorem foldl_stepWorker_inv (env : Env W B N) (d : SongSaraDownloader) (songs : List Song)
    (albumDir : GoString) (sched : List Nat) (p : Pool W)
    (h : PoolInv env d songs albumDir p) :
    PoolInv env d songs albumDir (sched.foldl (stepWorker env d songs albumDir) p) := by
  induction sched generalizing p with
  | nil => exact h
  | cons i rest ih => exact ih _ (stepWorker_inv env d songs albumDir p i h)

theorem PoolInv.lt_of_mem_running {env : Env W B N} {d : SongSaraDownloader}
    {songs : List Song} {albumDir : GoString} {p : Pool W}
    (h : PoolInv env d songs albumDir p) {i : Nat} (hi : i ∈ p.running) :
    i < songs.length := by
  have : i ∈ p.waiting ++ p.running ++ p.calls.map Call.index :=
    List.mem_append_left _ (List.mem_append_right _ hi)
  exact List.mem_range.mp (h.1.subset this)

theorem PoolInv.measure_le {env : Env W B N} {d : SongSaraDownloader}
    {songs : List Song} {albumDir : GoString} {p : Pool W}
    (h : PoolInv env d songs albumDir p) :
    2 * p.waiting.length + p.running.length ≤ 2 * songs.length := by
  have := h.1.length_eq
  simp only [List.length_append, List.length_map, List.length_range] at this
  omega

theorem stepWorker_running_head (env : Env W B N) (d : SongSaraDownloader)
    (songs : List Song) (albumDir : GoString) (p : Pool W) (i : Nat) (r : List Nat)
    (hr : p.running = i :: r) (hi : i < songs.length) :
    (stepWorker env d songs albumDir p i).waiting = p.waiting ∧
    (stepWorker env d songs albumDir p i).running = r := by
  have hmem : i ∈ p.running := by rw [hr]; exact List.mem_cons_self _ _
  have hs : songs[i]? = some songs[i] := List.getElem?_eq_getElem hi
  unfold stepWorker
  simp only [hmem, if_true, hs, true_and]
  rw [hr]; exact List.erase_cons_head _ _

theorem stepWorker_waiting_head (env : Env W B N) (d : SongSaraDownloader)
    (songs : List Song) (albumDir : GoString) (p : Pool W) (i : Nat) (ws : List Nat)
    (hr : p.running = []) (hw : p.waiting = i :: ws) (hc : 0 < d.concurrency) :
    (stepWorker env d songs albumDir p i).waiting = ws ∧
    (stepWorker env d songs albumDir p i).running = [i] := by
  unfold stepWorker
  simp only [hr, hw, List.not_mem_nil, if_false, List.mem_cons, true_or, if_true,
    List.length_nil, Nat.cast_zero, hc, List.erase_cons_head, and_self]

theorem drain_inv (env : Env W B N) (d : SongSaraDownloader) (songs : List Song)
    (albumDir : GoString) (fuel : Nat) (p : Pool W) (h : PoolInv env d songs albumDir p) :
    PoolInv env d songs albumDir (drain env d songs albumDir fuel p) := by
  induction fuel generalizing p with
  | zero => exact h
  | succ k ih =>
    unfold drain
    split
    · exact ih _ (stepWorker_inv env d songs albumDir p _ h)
    · split
      · exact ih _ (stepWorker_inv env d songs albumDir p _ h)
      · exact h

/-- With at least one slot, draining finishes every worker. -/
theorem drain_done (env : Env W B N) (d : SongSaraDownloader) (songs : List Song)
    (albumDir : GoString) (hc : 0 < d.concurrency) (fuel : Nat) (p : Pool W)
    (h : PoolInv env d songs albumDir p)
    (hfuel : 2 * p.waiting.length + p.running.length ≤ fuel) :
    (drain env d songs albumDir fuel p).waiting = [] ∧
    (drain env d songs albumDir fuel p).running = [] := by
  induction fuel generalizing p with
  | zero =>
    have h1 : p.waiting.length = 0 := by omega
    have h2 : p.running.length = 0 := by omega
    exact ⟨List.length_eq_zero.mp h1, List.length_eq_zero.mp h2⟩
  | succ k ih =>
    unfold drain
    split
    · rename_i i r hr
      have hi : i < songs.length := h.lt_of_mem_running (by rw [hr]; exact List.mem_cons_self _ _)
      obtain ⟨e1, e2⟩ := stepWorker_running_head env d songs albumDir p i r hr hi
      refine ih _ (stepWorker_inv env d songs albumDir p i h) ?_
      rw [e1, e2]
      rw [hr] at hfuel
      simp only [List.length_cons] at hfuel
      omega
    · rename_i hr
      split
      · rename_i i ws hw
        obtain ⟨e1, e2⟩ := stepWorker_waiting_head env d songs albumDir p i ws hr hw hc
        refine ih _ (stepWorker_inv env d songs albumDir p i h) ?_
        rw [e1, e2]
        rw [hw, hr] at hfuel
        simp only [List.length_cons, List.length_singleton, List.length_nil] at hfuel ⊢
        omega
      · rename_i hw
        exact ⟨hw, hr⟩

theorem runPool_inv (env : Env W B N) (d : SongSaraDownloader) (songs : List Song)
    (albumDir : GoString) (w : World W) (sched : List Nat) :
    PoolInv env d songs albumDir (runPool env d songs albumDir w sched) := by
  unfold runPool
  refine drain_inv env d songs albumDir _ _ (foldl_stepWorker_inv env d songs albumDir _ _ ?_)
  refine ⟨by simp, ?_, rfl⟩
  intro c hc
  simp at hc

theorem runPool_done (env : Env W B N) (d : SongSaraDownloader) (songs : List Song)
    (albumDir : GoString) (w : World W) (sched : List Nat) (hc : 0 < d.concurrency) :
    (runPool env d songs albumDir w sched).waiting = [] ∧
    (runPool env d songs albumDir w sched).running = [] := by
  unfold runPool
  have hinv : PoolInv env d songs albumDir
      (sched.foldl (stepWorker env d songs albumDir)
        { world := w, waiting := List.range songs.length, running := [], errors := [],
          calls := [] }) := by
    refine foldl_stepWorker_inv env d songs albumDir _ _ ⟨by simp, ?_, rfl⟩
    intro c hc
    simp at hc
  exact drain_done env d songs albumDir hc _ _ hinv hinv.measure_le

/-! ### The album download -/

theorem length_filterMap_eq_countP {α β : Type} (f : α → Option β) (l : List α) :
    (l.filterMap f).length = l.countP (fun a => (f a).isSome) := by
  induction l with
  | nil => rfl
  | cons a as ih =>
    cases h : f a with
    | none => simp [List.filterMap_cons, h, ih]
    | some b => simp [List.filterMap_cons, h, ih]

/-- The three ways `downloadAlbum` ends when the channel has at least one slot. -/
theorem downloadAlbum_cases (env : Env W B N) (d : SongSaraDownloader) (w : World W)
    (album : Album) (sched : List Nat) (hc : 0 < d.concurrency) :
    (album.Songs = [] ∧
      (downloadAlbum env d w album sched).outcome = .returned (some .noSongs) ∧
      (downloadAlbum env d w album sched).dirCreated = none) ∨
    (album.Songs ≠ [] ∧
      (downloadAlbum env d w album sched).outcome = .returned (some .createAlbumDir) ∧
      (downloadAlbum env d w album sched).dirCreated = some false ∧
      (env.mkdirAll w.state (albumDirOf d.outputDir album.Title)).2 = false) ∨
    (album.Songs ≠ [] ∧
      (downloadAlbum env d w album sched).outcome = .returned none ∧
      (downloadAlbum env d w album sched).dirCreated = some true ∧
      (env.mkdirAll w.state (albumDirOf d.outputDir album.Title)).2 = true) := by
  by_cases hs : album.Songs = []
  · left
    simp [downloadAlbum, hs]
  · right
    have hlen : album.Songs.length ≠ 0 := fun h => hs (List.length_eq_zero.mp h)
    cases hmk : (env.mkdirAll w.state (albumDirOf d.outputDir album.Title)).2 with
    | false =>
      left
      simp [downloadAlbum, hlen, hmk, hs]
    | true =>
      right
      by_cases hdry : d.dryRun = true
      · simp [downloadAlbum, hlen, hmk, hs, hdry]
      · have hneg : ¬ d.concurrency < 0 := by omega
        have hdone := runPool_done env d album.Songs (albumDirOf d.outputDir album.Title)
          { state := (env.mkdirAll w.state (albumDirOf d.outputDir album.Title)).1,
            log := w.log ++ [.mkdirAll (albumDirOf d.outputDir album.Title)] } sched hc
        simp [downloadAlbum, hlen, hmk, hs, hdry, hneg, hdone.1, hdone.2]

/-- In a dry run `downloadAlbum` calls `os.MkdirAll` on the album directory and does
nothing else: no worker is started. -/
theorem downloadAlbum_dryRun (env : Env W B N) (d : SongSaraDownloader) (w : World W)
    (album : Album) (sched : List Nat) (hs : album.Songs ≠ []) (hdry : d.dryRun = true) :
    (downloadAlbum env d w album sched).world.log =
      w.log ++ [.mkdirAll (albumDirOf d.outputDir album.Title)] ∧
    (downloadAlbum env d w album sched).calls = [] ∧
    (downloadAlbum env d w album sched).outcome =
      .returned (if (env.mkdirAll w.state (albumDirOf d.outputDir album.Title)).2 = true
        then none else some .createAlbumDir) := by
  have hlen : album.Songs.length ≠ 0 := fun h => hs (List.length_eq_zero.mp h)
  cases hmk : (env.mkdirAll w.state (albumDirOf d.outputDir album.Title)).2 with
  | false => simp [downloadAlbum, hlen, hmk]
  | true => simp [downloadAlbum, hlen, hmk, hdry]

/-- With a channel of no slot no worker is ever admitted: `downloadAlbum` never returns
and `downloadSong` is never called. -/
theorem downloadAlbum_zero_concurrency (env : Env W B N) (d : SongSaraDownloader)
    (w : World W) (album : Album) (sched : List Nat) (hs : album.Songs ≠ [])
    (hdry : d.dryRun = false)
    (hmk : (env.mkdirAll w.state (albumDirOf d.outputDir album.Title)).2 = true)
    (hc : d.concurrency = 0) :
    (downloadAlbum env d w album sched).outcome = .blocked ∧
    (downloadAlbum env d w album sched).calls = [] := by
  have hlen : album.Songs.length ≠ 0 := fun h => hs (List.length_eq_zero.mp h)
  have hstep : ∀ (p : Pool W) (i : Nat), p.running = [] →
      stepWorker env d album.Songs (albumDirOf d.outputDir album.Title) p i = p := by
    intro p i hr
    simp [stepWorker, hr, hc]
  have hfold : ∀ (sched : List Nat) (p : Pool W), p.running = [] →
      sched.foldl (stepWorker env d album.Songs (albumDirOf d.outputDir album.Title)) p = p := by
    intro sched
    induction sched with
    | nil => intro p _; rfl
    | cons i rest ih =>
      intro p hr
      rw [List.foldl_cons, hstep p i hr]
      exact ih p hr
  have hdrain : ∀ (fuel : Nat) (p : Pool W), p.running = [] →
      drain env d album.Songs (albumDirOf d.outputDir album.Title) fuel p = p := by
    intro fuel
    induction fuel with
    | zero => intro p _; rfl
    | succ k ih =>
      intro p hr
      unfold drain
      rw [hr]
      cases hw : p.waiting with
      | nil => rfl
      | cons i ws =>
        simp only
        rw [hstep p i hr]
        exact ih p hr
  have hrange : List.range album.Songs.length ≠ [] := by
    intro h
    have := congrArg List.length h
    rw [List.length_range, List.length_nil] at this
    exact hlen this
  have hpool : ∀ w', runPool env d album.Songs (albumDirOf d.outputDir album.Title) w' sched =
      { world := w', waiting := List.range album.Songs.length, running := [], errors := [],
        calls := [] } := by
    intro w'
    show drain env d album.Songs (albumDirOf d.outputDir album.Title) (2 * album.Songs.length)
      (sched.foldl (stepWorker env d album.Songs (albumDirOf d.outputDir album.Title))
        { world := w', waiting := List.range album.Songs.length, running := [], errors := [],
          calls := [] }) = _
    rw [hfold sched _ rfl, hdrain _ _ rfl]
  simp [downloadAlbum, hlen, hmk, hdry, hc, hpool, hrange]

/-- Counterexample to C4 as stated: three records, dry-run off, the album directory
created, and `-c 0`. The channel has no slot, so no worker is admitted: `downloadSong` is
never called and `downloadAlbum` does not return. With `-c -1` the creation of the channel
panics. -/
theorem downloadAlbum_blocks_without_slot :
    1 ≤ demoAlbum.Songs.length ∧
    ({ NewSongSaraDownloader with concurrency := 0 } : SongSaraDownloader).dryRun = false ∧
    (demoEnv.mkdirAll world0.state
      (albumDirOf NewSongSaraDownloader.outputDir demoAlbum.Title)).2 = true ∧
    (downloadAlbum demoEnv { NewSongSaraDownloader with concurrency := 0 } world0 demoAlbum
      [2, 0, 2]).outcome = .blocked ∧
    (downloadAlbum demoEnv { NewSongSaraDownloader with concurrency := 0 } world0 demoAlbum
      [2, 0, 2]).calls = [] ∧
    (downloadAlbum demoEnv { NewSongSaraDownloader with concurrency := -1 } world0 demoAlbum
      [2, 0, 2]).outcome = .panicked ∧
    (downloadAlbum demoEnv { NewSongSaraDownloader with concurrency := -1 } world0 demoAlbum
      [2, 0, 2]).calls = [] := by
  decide

/-- C4, amended: partial-failure isolation. For a collection of at least one record, with
dry-run off, the album directory created and `concurrency` at least 1, whatever the
interleaving of the workers: `downloadAlbum` returns `nil`; the calls of `downloadSong`
are one per record (their indices are a rearrangement of `0 .. n-1`), each with the record
at its index and track number index + 1; and the error list holds exactly one wrapped
error for each call that failed. -/
theorem downloadAlbum_partial_failure_isolation (env : Env W B N) (d : SongSaraDownloader)
    (w : World W) (album : Album) (sched : List Nat)
    (hn : 1 ≤ album.Songs.length) (hdry : d.dryRun = false)
    (hmk : (env.mkdirAll w.state (albumDirOf d.outputDir album.Title)).2 = true)
    (hc : 0 < d.concurrency) :
    (downloadAlbum env d w album sched).outcome = .returned none ∧
    ((downloadAlbum env d w album sched).calls.map Call.index).Perm
      (List.range album.Songs.length) ∧
    (∀ c ∈ (downloadAlbum env d w album sched).calls,
      album.Songs[c.index]? = some c.song ∧ c.trackNumber = c.index + 1 ∧
      c.albumDir = albumDirOf d.outputDir album.Title ∧
      ∃ w', c.result = (downloadSong env d w' c.song c.albumDir c.trackNumber).2) ∧
    (downloadAlbum env d w album sched).errors =
      (downloadAlbum env d w album sched).calls.filterMap
        (fun c => c.result.map (Err.song c.song.Title)) ∧
    (downloadAlbum env d w album sched).errors.length =
      (downloadAlbum env d w album sched).calls.countP (fun c => c.result.isSome) := by
  have hlen : album.Songs.length ≠ 0 := by omega
  have hneg : ¬ d.concurrency < 0 := by omega
  have hdone := runPool_done env d album.Songs (albumDirOf d.outputDir album.Title)
    { state := (env.mkdirAll w.state (albumDirOf d.outputDir album.Title)).1,
      log := w.log ++ [.mkdirAll (albumDirOf d.outputDir album.Title)] } sched hc
  have hinv := runPool_inv env d album.Songs (albumDirOf d.outputDir album.Title)
    { state := (env.mkdirAll w.state (albumDirOf d.outputDir album.Title)).1,
      log := w.log ++ [.mkdirAll (albumDirOf d.outputDir album.Title)] } sched
  obtain ⟨hperm, hcalls, herr⟩ := hinv
  rw [hdone.1, hdone.2] at hperm
  have hout : (downloadAlbum env d w album sched).outcome = .returned none := by
    simp [downloadAlbum, hlen, hmk, hdry, hneg, hdone.1, hdone.2]
  have hcl : (downloadAlbum env d w album sched).calls =
      (runPool env d album.Songs (albumDirOf d.outputDir album.Title)
        { state := (env.mkdirAll w.state (albumDirOf d.outputDir album.Title)).1,
          log := w.log ++ [.mkdirAll (albumDirOf d.outputDir album.Title)] } sched).calls := by
    simp [downloadAlbum, hlen, hmk, hdry, hneg]
  have her : (downloadAlbum env d w album sched).errors =
      (runPool env d album.Songs (albumDirOf d.outputDir album.Title)
        { state := (env.mkdirAll w.state (albumDirOf d.outputDir album.Title)).1,
          log := w.log ++ [.mkdirAll (albumDirOf d.outputDir album.Title)] } sched).errors := by
    simp [downloadAlbum, hlen, hmk, hdry, hneg]
  rw [hcl, her]
  refine ⟨hout, by simpa using hperm, hcalls, herr, ?_⟩
  rw [herr, length_filterMap_eq_countP]
  congr 1
  funext c
  cases c.result <;> rfl

/-- Witness for C4: three records whose second download fails with status 404, under a
schedule that starts with the third worker. -/
theorem downloadAlbum_partial_failure_isolation_witness :
    (downloadAlbum demoEnv NewSongSaraDownloader world0 demoAlbum [2, 0, 2]).outcome =
      .returned none ∧
    (downloadAlbum demoEnv NewSongSaraDownloader world0 demoAlbum [2, 0, 2]).calls.map
      Call.index = [2, 0, 1] ∧
    (downloadAlbum demoEnv NewSongSaraDownloader world0 demoAlbum [2, 0, 2]).errors =
      [.song "Gone".toList (.httpStatus 404)] :=
  ⟨(downloadAlbum_partial_failure_isolation demoEnv NewSongSaraDownloader world0 demoAlbum
      [2, 0, 2] (by decide) rfl rfl (by decide)).1,
   by decide, by decide⟩

/-- C9, the behaviour of the code on a dry run: `downloadAlbum` calls `os.MkdirAll` on
the album directory before it looks at `dryRun`, and `Download` has created the output
root before that, so a dry run writes two directories to the file system. No record is
requested and no file is created. -/
theorem dryRun_creates_directories :
    (downloadAlbum demoEnv { NewSongSaraDownloader with dryRun := true } world0 demoAlbum
      []).world.log = [.mkdirAll "downloads/Demo Album".toList] ∧
    (downloadAlbum demoEnv { NewSongSaraDownloader with dryRun := true } world0 demoAlbum
      []).outcome = .returned none ∧
    ((Download demoEnv { NewSongSaraDownloader with dryRun := true } world0
      ["https://songsara.net/59021/".toList] (fun _ => [])).world.log.filter
        Event.isWrite) =
      [.mkdirAll "downloads".toList, .mkdirAll "downloads/Demo Album".toList] := by
  decide

/-! ### Output layout -/

/-- Counterexample to C8 as stated: a page titled `..` sends the album directory to the
parent of the output root, and a title made of illegal characters only (or `.`) sends it
to the output root itself; neither is an entry of the root named by the sanitized
title. -/
theorem albumDir_not_under_root :
    (albumOfDocument dotsDom).Title = "..".toList ∧
    albumDirOf "downloads".toList (albumOfDocument dotsDom).Title = ".".toList ∧
    albumDirOf "downloads".toList "??".toList = "downloads".toList ∧
    albumDirOf "/music".toList "..".toList = "/".toList ∧
    ¬ isEntryOf "downloads".toList
        (albumDirOf "downloads".toList (albumOfDocument dotsDom).Title)
        (sanitizeFilename (albumOfDocument dotsDom).Title) ∧
    ¬ isEntryOf "downloads".toList (albumDirOf "downloads".toList "??".toList)
        (sanitizeFilename "??".toList) := by
  decide

/-- C8, amended: when the sanitized collection title is not empty, `.` or `..`, the
album directory is the entry of the output root named by the sanitized title; and for
every title the target path of every record is the entry of the album directory named
by the file name of the record. -/
theorem output_layout (urlParse : GoString → Option GoString) (outputDir title : GoString)
    (song : Song) (n : Nat) :
    (sanitizeFilename title ≠ [] → sanitizeFilename title ≠ ".".toList →
      sanitizeFilename title ≠ "..".toList →
      isEntryOf outputDir (albumDirOf outputDir title) (sanitizeFilename title)) ∧
    isEntryOf (albumDirOf outputDir title)
      (songPath urlParse (albumDirOf outputDir title) song n)
      (songFilename urlParse song n) := by
  refine ⟨?_, ?_⟩
  · intro h1 h2 h3
    have hplain : isPlainName (sanitizeFilename title) := by
      refine ⟨h1, h2, h3, ?_⟩
      intro h
      exact absurd (sanitizeFilename_not_illegal _ _ h) (by decide)
    exact ⟨hplain, filepathJoin_entry _ _ hplain⟩
  · exact ⟨songFilename_plain urlParse song n,
      filepathJoin_entry _ _ (songFilename_plain urlParse song n)⟩

/-- Witness for C8: the first record of the album `Demo Album` under `downloads`. -/
theorem output_layout_witness :
    albumDirOf "downloads".toList "Demo Album".toList = "downloads/Demo Album".toList ∧
    isEntryOf "downloads".toList (albumDirOf "downloads".toList "Demo Album".toList)
      (sanitizeFilename "Demo Album".toList) ∧
    songPath demoUrlParse (albumDirOf "downloads".toList "Demo Album".toList)
      ⟨"Track One".toList, "https://x/a.mp3".toList⟩ 1 =
      "downloads/Demo Album/01 - Track One.mp3".toList :=
  ⟨by decide,
   (output_layout demoUrlParse "downloads".toList "Demo Album".toList
      ⟨"Track One".toList, "https://x/a.mp3".toList⟩ 1).1
      (by decide) (by decide) (by decide),
   by decide⟩

/-! ### The orchestrator -/

theorem downloadLoop_spec (env : Env W B N) (d : SongSaraDownloader)
    (sched : Nat → List Nat) (hc : 0 < d.concurrency) (urls : List GoString) :
    ∀ (i : Nat) (st : LoopState W),
      (downloadLoop env d sched i urls st).2 = none ∧
      ∃ new : List (UrlTrace W),
        (downloadLoop env d sched i urls st).1.trace = st.trace ++ new ∧
        new.map UrlTrace.url = urls ∧
        new.map UrlTrace.index = List.range' i urls.length ∧
        worldsChained st.world new (downloadLoop env d sched i urls st).1.world ∧
        (∀ t ∈ new, t.faithful env d sched) ∧
        (downloadLoop env d sched i urls st).1.failedDownloads =
          st.failedDownloads + new.countP (fun t => !t.succeeded) ∧
        (downloadLoop env d sched i urls st).1.successfulDownloads =
          st.successfulDownloads + new.countP (fun t => t.succeeded) := by
  induction urls with
  | nil =>
    intro i st
    exact ⟨rfl, [], by simp [downloadLoop], rfl, rfl, rfl, by simp, by simp [downloadLoop],
      by simp [downloadLoop]⟩
  | cons url rest ih =>
    intro i st
    cases hs : (scrapeAlbum env st.world url).2 with
    | error err =>
      have hstep : downloadLoop env d sched i (url :: rest) st =
          downloadLoop env d sched (i + 1) rest
            { world := (scrapeAlbum env st.world url).1,
              successfulDownloads := st.successfulDownloads,
              failedDownloads := st.failedDownloads + 1,
              trace := st.trace ++ [⟨i, url, st.world, .error err, none,
                (scrapeAlbum env st.world url).1, false⟩] } := by
        simp only [downloadLoop, hs]
      obtain ⟨h1, new, h2, h3, hidx, hch, h4, h5, h6⟩ := ih (i + 1)
        { world := (scrapeAlbum env st.world url).1,
          successfulDownloads := st.successfulDownloads,
          failedDownloads := st.failedDownloads + 1,
          trace := st.trace ++ [⟨i, url, st.world, .error err, none,
            (scrapeAlbum env st.world url).1, false⟩] }
      rw [hstep]
      refine ⟨h1, ⟨i, url, st.world, .error err, none, (scrapeAlbum env st.world url).1,
        false⟩ :: new, by simpa using h2, by simp [h3], ?_, ⟨rfl, hch⟩, ?_, ?_, ?_⟩
      · simp [hidx, List.range'_succ]
      · intro t ht
        rcases List.mem_cons.mp ht with ht | ht
        · subst ht
          exact ⟨hs.symm, ⟨rfl, rfl⟩, by simp [UrlTrace.failureCondition]⟩
        · exact h4 t ht
      · rw [h5]; simp; omega
      · rw [h6]; simp
    | ok album =>
      rcases downloadAlbum_cases env d (scrapeAlbum env st.world url).1 album (sched i) hc with
        ⟨hsongs, hout, hdir⟩ | ⟨hsongs, hout, hdir, hmk⟩ | ⟨hsongs, hout, hdir, hmk⟩
      · have hstep : downloadLoop env d sched i (url :: rest) st =
            downloadLoop env d sched (i + 1) rest
              { world := (downloadAlbum env d (scrapeAlbum env st.world url).1 album
                  (sched i)).world,
                successfulDownloads := st.successfulDownloads,
                failedDownloads := st.failedDownloads + 1,
                trace := st.trace ++ [⟨i, url, st.world, .ok album, none,
                  (downloadAlbum env d (scrapeAlbum env st.world url).1 album
                    (sched i)).world, false⟩] } := by
          simp only [downloadLoop, hs, hout, hdir]
        obtain ⟨h1, new, h2, h3, hidx, hch, h4, h5, h6⟩ := ih (i + 1)
          { world := (downloadAlbum env d (scrapeAlbum env st.world url).1 album
              (sched i)).world,
            successfulDownloads := st.successfulDownloads,
            failedDownloads := st.failedDownloads + 1,
            trace := st.trace ++ [⟨i, url, st.world, .ok album, none,
              (downloadAlbum env d (scrapeAlbum env st.world url).1 album
                (sched i)).world, false⟩] }
        rw [hstep]
        refine ⟨h1, ⟨i, url, st.world, .ok album, none,
          (downloadAlbum env d (scrapeAlbum env st.world url).1 album (sched i)).world,
          false⟩ :: new, by simpa using h2, by simp [h3], ?_, ⟨rfl, hch⟩, ?_, ?_, ?_⟩
        · simp [hidx, List.range'_succ]
        · intro t ht
          rcases List.mem_cons.mp ht with ht | ht
          · subst ht
            exact ⟨hs.symm, ⟨by simp [hsongs], rfl⟩,
              by simp [UrlTrace.failureCondition, hsongs]⟩
          · exact h4 t ht
        · rw [h5]; simp; omega
        · rw [h6]; simp
      · have hstep : downloadLoop env d sched i (url :: rest) st =
            downloadLoop env d sched (i + 1) rest
              { world := (downloadAlbum env d (scrapeAlbum env st.world url).1 album
                  (sched i)).world,
                successfulDownloads := st.successfulDownloads,
                failedDownloads := st.failedDownloads + 1,
                trace := st.trace ++ [⟨i, url, st.world, .ok album, some false,
                  (downloadAlbum env d (scrapeAlbum env st.world url).1 album
                    (sched i)).world, false⟩] } := by
          simp only [downloadLoop, hs, hout, hdir]
        obtain ⟨h1, new, h2, h3, hidx, hch, h4, h5, h6⟩ := ih (i + 1)
          { world := (downloadAlbum env d (scrapeAlbum env st.world url).1 album
              (sched i)).world,
            successfulDownloads := st.successfulDownloads,
            failedDownloads := st.failedDownloads + 1,
            trace := st.trace ++ [⟨i, url, st.world, .ok album, some false,
              (downloadAlbum env d (scrapeAlbum env st.world url).1 album
                (sched i)).world, false⟩] }
        rw [hstep]
        refine ⟨h1, ⟨i, url, st.world, .ok album, some false,
          (downloadAlbum env d (scrapeAlbum env st.world url).1 album (sched i)).world,
          false⟩ :: new, by simpa using h2, by simp [h3], ?_, ⟨rfl, hch⟩, ?_, ?_, ?_⟩
        · simp [hidx, List.range'_succ]
        · intro t ht
          rcases List.mem_cons.mp ht with ht | ht
          · subst ht
            exact ⟨hs.symm, ⟨by simp [hsongs, hmk], rfl⟩,
              by simp [UrlTrace.failureCondition]⟩
          · exact h4 t ht
        · rw [h5]; simp; omega
        · rw [h6]; simp
      · have hstep : downloadLoop env d sched i (url :: rest) st =
            downloadLoop env d sched (i + 1) rest
              { world := (downloadAlbum env d (scrapeAlbum env st.world url).1 album
                  (sched i)).world,
                successfulDownloads := st.successfulDownloads + 1,
                failedDownloads := st.failedDownloads,
                trace := st.trace ++ [⟨i, url, st.world, .ok album, some true,
                  (downloadAlbum env d (scrapeAlbum env st.world url).1 album
                    (sched i)).world, true⟩] } := by
          simp only [downloadLoop, hs, hout, hdir]
        obtain ⟨h1, new, h2, h3, hidx, hch, h4, h5, h6⟩ := ih (i + 1)
          { world := (downloadAlbum env d (scrapeAlbum env st.world url).1 album
              (sched i)).world,
            successfulDownloads := st.successfulDownloads + 1,
            failedDownloads := st.failedDownloads,
            trace := st.trace ++ [⟨i, url, st.world, .ok album, some true,
              (downloadAlbum env d (scrapeAlbum env st.world url).1 album
                (sched i)).world, true⟩] }
        rw [hstep]
        refine ⟨h1, ⟨i, url, st.world, .ok album, some true,
          (downloadAlbum env d (scrapeAlbum env st.world url).1 album (sched i)).world,
          true⟩ :: new, by simpa using h2, by simp [h3], ?_, ⟨rfl, hch⟩, ?_, ?_, ?_⟩
        · simp [hidx, List.range'_succ]
        · intro t ht
          rcases List.mem_cons.mp ht with ht | ht
          · subst ht
            exact ⟨hs.symm, ⟨by simp [hsongs, hmk], rfl⟩,
              by simp [UrlTrace.failureCondition, hsongs]⟩
          · exact h4 t ht
        · rw [h5]; simp
        · rw [h6]; simp; omega

theorem countP_add_countP_not (l : List (UrlTrace W)) :
    l.countP (fun t => t.succeeded) + l.countP (fun t => !t.succeeded) = l.length := by
  induction l with
  | nil => rfl
  | cons t ts ih =>
    cases h : t.succeeded <;> simp [List.countP_cons, h] <;> omega

/-- Counterexample to C5 as stated: with `-c 0` and the output root created, the album
of the first URL never finishes (no worker is admitted), so `Download` does not return and
no URL is ever counted: succeeded + failed = 0 while total = 2. -/
theorem Download_blocks_without_slot :
    (Download demoEnv { NewSongSaraDownloader with concurrency := 0 } world0
      ["https://songsara.net/59021/".toList, "https://songsara.net/404/".toList]
      (fun _ => [])).outcome = .blocked ∧
    (Download demoEnv { NewSongSaraDownloader with concurrency := 0 } world0
      ["https://songsara.net/59021/".toList, "https://songsara.net/404/".toList]
      (fun _ => [])).totalURLs = 2 ∧
    (Download demoEnv { NewSongSaraDownloader with concurrency := 0 } world0
      ["https://songsara.net/59021/".toList, "https://songsara.net/404/".toList]
      (fun _ => [])).successfulDownloads +
    (Download demoEnv { NewSongSaraDownloader with concurrency := 0 } world0
      ["https://songsara.net/59021/".toList, "https://songsara.net/404/".toList]
      (fun _ => [])).failedDownloads = 0 ∧
    (Download demoEnv { NewSongSaraDownloader with concurrency := 0 } world0
      ["https://songsara.net/59021/".toList, "https://songsara.net/404/".toList]
      (fun _ => [])).trace.map UrlTrace.url = [] := by
  decide

/-- C5, amended: the orchestrator tally. When the output root can be created and
`concurrency` is at least 1, `Download` returns; it has processed every URL once, in
order, each in the world the previous one left, whatever happened to the earlier ones; a
URL is counted failed exactly when its scrape failed, it yielded no record or its album
directory could not be created, and succeeded otherwise; succeeded + failed = total = the
number of URLs; and the returned error is non-nil exactly when failed > 0. -/
theorem Download_tally (env : Env W B N) (d : SongSaraDownloader) (w : World W)
    (urls : List GoString) (sched : Nat → List Nat)
    (hroot : (env.mkdirAll w.state d.outputDir).2 = true) (hc : 0 < d.concurrency) :
    (Download env d w urls sched).trace.map UrlTrace.url = urls ∧
    (Download env d w urls sched).trace.map UrlTrace.index = List.range urls.length ∧
    worldsChained
      { state := (env.mkdirAll w.state d.outputDir).1, log := w.log ++ [.mkdirAll d.outputDir] }
      (Download env d w urls sched).trace (Download env d w urls sched).world ∧
    (∀ t ∈ (Download env d w urls sched).trace, t.faithful env d sched) ∧
    (Download env d w urls sched).failedDownloads =
      (Download env d w urls sched).trace.countP (fun t => !t.succeeded) ∧
    (Download env d w urls sched).successfulDownloads =
      (Download env d w urls sched).trace.countP (fun t => t.succeeded) ∧
    (Download env d w urls sched).successfulDownloads +
      (Download env d w urls sched).failedDownloads =
        (Download env d w urls sched).totalURLs ∧
    (Download env d w urls sched).totalURLs = urls.length ∧
    (Download env d w urls sched).outcome =
      (if 0 < (Download env d w urls sched).failedDownloads
        then .returned (some (.downloadsFailed (Download env d w urls sched).failedDownloads))
        else .returned none) := by
  obtain ⟨h1, new, h2, h3, hidx, hch, h4, h5, h6⟩ := downloadLoop_spec env d sched hc urls 0
    { world := { state := (env.mkdirAll w.state d.outputDir).1,
                 log := w.log ++ [.mkdirAll d.outputDir] },
      successfulDownloads := 0, failedDownloads := 0, trace := [] }
  simp only [List.nil_append, Nat.zero_add] at h2 h5 h6
  have hlen : new.length = urls.length := by rw [← h3, List.length_map]
  have hsum := countP_add_countP_not new
  rw [← List.range_eq_range'] at hidx
  simp only [Download, hroot, h1, h2, h5, h6, Bool.true_eq_false, if_false]
  exact ⟨h3, hidx, hch, h4, trivial, trivial, by omega, trivial, trivial⟩

/-- Witness for C5: two URLs, the second of which answers 404: one success, one
failure, and a non-nil error. -/
theorem Download_tally_witness :
    (Download demoEnv NewSongSaraDownloader world0
      ["https://songsara.net/59021/".toList, "https://songsara.net/404/".toList]
      (fun _ => [])).trace.map UrlTrace.url =
      ["https://songsara.net/59021/".toList, "https://songsara.net/404/".toList] ∧
    (Download demoEnv NewSongSaraDownloader world0
      ["https://songsara.net/59021/".toList, "https://songsara.net/404/".toList]
      (fun _ => [])).successfulDownloads = 1 ∧
    (Download demoEnv NewSongSaraDownloader world0
      ["https://songsara.net/59021/".toList, "https://songsara.net/404/".toList]
      (fun _ => [])).outcome = .returned (some (.downloadsFailed 1)) :=
  ⟨(Download_tally demoEnv NewSongSaraDownloader world0
      ["https://songsara.net/59021/".toList, "https://songsara.net/404/".toList]
      (fun _ => []) rfl (by decide)).1,
   by decide, by decide⟩

end SongSara
